import Mathlib

/-!
# NFC tag engine of `es-app/src/nfc.cpp`

A shallow embedding of the tag-level protocol code of `nfc.cpp` (page I/O,
raw-mode controller, unlock and authentication engine, magic-card detector,
game-record codec, password parsing) together with theorems about it.

Conventions of the embedding.

* The file-scope statics of `nfc.cpp` (`mtDump`, `mp`, `uiBlocks`,
  `uiReadPages`, `szRx`, ...) are the fields of `State`.  `uiBlocks` is
  initialised to `0x20` and never assigned in `nfc.cpp`; the theorems read it
  from the state and so cover other page counts as well.
* `mtDump` is addressed by block and byte, `mp.mpd.abtData` by byte, both
  without an upper bound: the type `mifareul_32` is declared in `nfc.h`, which
  is not among the sources.  An access of the source past the end of either
  object is an access to this unbounded store, not to a neighbouring object.
* libnfc is external.  Every call into it is one `Cmd`; the adapter and the
  tag in front of it are a `Device`, an arbitrary function from the history of
  exchanges so far and the command to the reply.  The history `State.log` is
  the only ghost field: it records each exchange in order.
* Bytes and machine integers are `Nat`/`Int`; `% 2 ^ 32` is written where
  a `uint32_t` can wrap.
* A loop whose guard reads the state takes a fuel argument and returns `none`
  when it runs out; a loop whose trip count is fixed on entry recurses on the
  number of iterations left.
-/

namespace Nfc

/-! ## libnfc boundary -/

/-- Device properties toggled by `raw_mode_start` and `raw_mode_end`. -/
inductive NfcProperty where
  | NP_HANDLE_CRC
  | NP_EASY_FRAMING
  deriving DecidableEq, Repr

/-- Opcode argument of `nfc_initiator_mifare_cmd`. -/
inductive MifareCmd where
  | MC_READ
  | MC_WRITE
  deriving DecidableEq, Repr

/-- One call into libnfc (or, for the dump file, into stdio), with the arguments
as the call site passes them. -/
inductive Cmd where
  | set_property_bool (property : NfcProperty) (bEnable : Bool)
  | transceive_bytes (pbtTx : List Nat)
  | transceive_bits (pbtTx : List Nat) (szTxBits : Nat)
  | mifare_cmd (mc : MifareCmd) (page : Nat) (abtData : List Nat)
  | select_passive_target
  | nfc_init
  | nfc_open
  | nfc_close
  | nfc_exit
  | fopen
  | fwrite (data : List Nat)
  | fclose
  deriving DecidableEq, Repr

/-- What a libnfc call hands back: its integer (or boolean, non-zero = true)
result and the bytes it stored in the receive buffer. -/
structure Reply where
  res : Int
  data : List Nat
  deriving DecidableEq, Repr

/-- One exchange with the device. -/
abbrev Event := Cmd × Reply

/-- A device behaviour: the reply to a command given every earlier exchange. -/
abbrev Device := List Event → Cmd → Reply

/-- The `EV1_*` variant held in `iEV1Type`. -/
inductive EV1Type where
  | EV1_NONE
  | EV1_UL11
  | EV1_UL21
  deriving DecidableEq, Repr

/-- File-scope state of `nfc.cpp`.  `mtDump b j` is
`mtDump.amb[b].mbd.abtData[j]`, `mp j` is `mp.mpd.abtData[j]`. -/
structure State where
  mtDump : Nat → Nat → Nat
  mp : Nat → Nat
  uiBlocks : Nat
  uiReadPages : Nat
  iPWD : Nat → Nat
  iPACK : Nat → Nat
  iEV1Type : EV1Type
  abtRx : List Nat
  szRxBits : Int
  szRx : Int
  atqa1 : Nat
  log : List Event

/-- What `nfc.cpp` takes from `nfc.h`, which is not part of the sources at
hand: the values of the `ENUM_GAMETYPE` enumerators and the byte offsets,
inside their 16-byte block, of the EV1 configuration fields `mbc11.pwd`,
`mbc11.pack`, `mbc21a.pwd` and `mbc21b.pack`. -/
structure NfcH where
  NES : Nat
  SNES : Nat
  GB : Nat
  GBC : Nat
  GBA : Nat
  GENESIS : Nat
  mbc11_pwd : Nat
  mbc11_pack : Nat
  mbc21a_pwd : Nat
  mbc21b_pack : Nat

/-- Perform one libnfc call: ask the device and append the exchange to the log. -/
def exec (dev : Device) (c : Cmd) (s : State) : Reply × State :=
  let r := dev s.log c
  (r, { s with log := s.log ++ [(c, r)] })

/-- The 16 bytes of `mp.mpd.abtData` as they go out with a write command. -/
def mpData (s : State) : List Nat :=
  (List.range 16).map s.mp

/-- `nfc_initiator_mifare_cmd(pnd, mc, page, &mp)`: a read that succeeds stores
the 16 received bytes in `mp.mpd.abtData`; a write sends `mp.mpd.abtData`. -/
def nfc_initiator_mifare_cmd (dev : Device) (mc : MifareCmd) (page : Nat) (s : State) :
    Bool × State :=
  match mc with
  | .MC_READ =>
    let (r, s1) := exec dev (.mifare_cmd .MC_READ page []) s
    if r.res ≠ 0 then
      (true, { s1 with mp := fun j => if j < 16 then r.data.getD j 0 else s1.mp j })
    else (false, s1)
  | .MC_WRITE =>
    let (r, s1) := exec dev (.mifare_cmd .MC_WRITE page (mpData s)) s
    (decide (r.res ≠ 0), s1)

/-- `nfc_initiator_select_passive_target(pnd, nmMifare, NULL, 0, &nt)`: the
integer result; on success the reply carries the ATQA bytes of `nt`. -/
def nfc_initiator_select_passive_target (dev : Device) (s : State) : Int × State :=
  let (r, s1) := exec dev .select_passive_target s
  (r.res, if 0 < r.res then { s1 with atqa1 := r.data.getD 1 0 } else s1)

/-! ## Frame transceiver (lines 85-101) -/

/-- `transmit_bits`: false exactly when the transport reports a negative length. -/
def transmit_bits (dev : Device) (pbtTx : List Nat) (szTxBits : Nat) (s : State) :
    Bool × State :=
  let (r, s1) := exec dev (.transceive_bits pbtTx szTxBits) s
  let s2 := { s1 with szRxBits := r.res, abtRx := r.data }
  if r.res < 0 then (false, s2) else (true, s2)

/-- `transmit_bytes`: false exactly when the transport reports a negative length. -/
def transmit_bytes (dev : Device) (pbtTx : List Nat) (szTx : Nat) (s : State) :
    Bool × State :=
  let (r, s1) := exec dev (.transceive_bytes (pbtTx.take szTx)) s
  let s2 := { s1 with szRx := r.res, abtRx := r.data }
  if r.res < 0 then (false, s2) else (true, s2)

/-! ## Raw-mode controller (lines 103-132) -/

/-- `raw_mode_start`: CRC handling off, then easy framing off. -/
def raw_mode_start (dev : Device) (s : State) : Bool × State :=
  let (r1, s1) := exec dev (.set_property_bool .NP_HANDLE_CRC false) s
  if r1.res < 0 then (false, s1)
  else
    let (r2, s2) := exec dev (.set_property_bool .NP_EASY_FRAMING false) s1
    if r2.res < 0 then (false, s2) else (true, s2)

/-- `raw_mode_end`: CRC handling on, then easy framing on. -/
def raw_mode_end (dev : Device) (s : State) : Bool × State :=
  let (r1, s1) := exec dev (.set_property_bool .NP_HANDLE_CRC true) s
  if r1.res < 0 then (false, s1)
  else
    let (r2, s2) := exec dev (.set_property_bool .NP_EASY_FRAMING true) s1
    if r2.res < 0 then (false, s2) else (true, s2)

/-! ## Unlock and authentication engine (lines 134-192)

`iso14443a_crc_append` is libnfc's; the two CRC bytes of a byte string are the
parameter `crc`.  The command arrays `abtEV1`, `abtPWAuth`, `abtHalt` are only
ever changed in the positions that the call itself rewrites before sending, so
each frame is built where it is sent. -/

/-- `iso14443a_crc_append(pbtData, szLen)`: the first `szLen` bytes followed by
their two CRC bytes. -/
def iso14443a_crc_append (crc : List Nat → Nat × Nat) (pbtData : List Nat) (szLen : Nat) :
    List Nat :=
  pbtData.take szLen ++ [(crc (pbtData.take szLen)).1, (crc (pbtData.take szLen)).2]

/-- `get_ev1_version` (lines 134-148). -/
def get_ev1_version (dev : Device) (crc : List Nat → Nat × Nat) (s : State) : Bool × State :=
  let (ok, s1) := raw_mode_start dev s
  if !ok then (false, s1)
  else
    let abtEV1 := iso14443a_crc_append crc [0x60, 0x00, 0x00] 1
    let (tx, s2) := transmit_bytes dev abtEV1 3 s1
    if !tx then
      let (_, s3) := raw_mode_end dev s2
      (false, s3)
    else
      let (e, s3) := raw_mode_end dev s2
      if !e then (false, s3)
      else if s3.szRx = 0 then (false, s3)
      else (true, s3)

/-- `ev1_pwd_auth` (lines 162-173); `pwd` are the four password bytes. -/
def ev1_pwd_auth (dev : Device) (crc : List Nat → Nat × Nat) (pwd : List Nat) (s : State) :
    Bool × State :=
  let (ok, s1) := raw_mode_start dev s
  if !ok then (false, s1)
  else
    let abtPWAuth := iso14443a_crc_append crc ([0x1B] ++ pwd.take 4 ++ [0x00, 0x00]) 5
    let (tx, s2) := transmit_bytes dev abtPWAuth 7 s1
    if !tx then (false, s2)
    else
      let (e, s3) := raw_mode_end dev s2
      if !e then (false, s3) else (true, s3)

/-- `unlock_card` (lines 175-192). -/
def unlock_card (dev : Device) (crc : List Nat → Nat × Nat) (s : State) : Bool × State :=
  let (ok, s1) := raw_mode_start dev s
  if !ok then (false, s1)
  else
    let abtHalt := iso14443a_crc_append crc [0x50, 0x00, 0x00, 0x00] 2
    let (_, s2) := transmit_bytes dev abtHalt 4 s1
    let (b1, s3) := transmit_bits dev [0x40] 7 s2
    if !b1 then (false, s3)
    else
      let (b2, s4) := transmit_bytes dev [0x43] 1 s3
      if !b2 then (false, s4)
      else
        let (e, s5) := raw_mode_end dev s4
        if !e then (false, s5) else (true, s5)

/-! ### Password parsing (lines 150-160)

`sscanf` is the C library's.  A C string is the list of its characters
(as byte values) before the terminator.  The directive `%2x` follows ISO C
(7.21.6.2 with the subject sequence of `strtoul`, base 16): white space is
skipped, then the longest run of at most two characters that is, or starts,
an optionally signed hexadecimal number with an optional `0x` is taken, and
the directive fails unless that run is such a number.  Libraries differ on
one run, `0x` without a digit; the parameter `BareHexPrefix` covers them. -/

/-- `isxdigit` in the C locale. -/
def isxdigit (c : Nat) : Bool :=
  (48 ≤ c && c ≤ 57) || (65 ≤ c && c ≤ 70) || (97 ≤ c && c ≤ 102)

/-- `isspace` in the C locale: space, `\t`, `\n`, `\v`, `\f`, `\r`. -/
def isspace (c : Nat) : Bool :=
  c == 32 || (9 ≤ c && c ≤ 13)

/-- Value of a hexadecimal digit. -/
def hexValue (c : Nat) : Nat :=
  if c ≤ 57 then c - 48 else if c ≤ 70 then c - 55 else c - 87

/-- Outcome of one conversion directive. -/
inductive ScanResult where
  | inputFailure
  | matchingFailure
  | ok (value : Nat) (rest : List Nat)

/-- What the C library does with a `%2x` field that is `0x` or `0X` (the
width ends after the `x`).  ISO C makes it a matching failure; libraries that
do not follow it store 0, and either consume the `x` or stop before it. -/
inductive BareHexPrefix where
  | fails
  | zeroConsumed
  | zeroStopped
  deriving DecidableEq, Repr

/-- One `%2x` directive on the rest of the input; the value is the
`unsigned int` that is stored. -/
def scan_2x (lib : BareHexPrefix) (input : List Nat) : ScanResult :=
  match input.dropWhile isspace with
  | [] => .inputFailure
  | c1 :: r1 =>
    if c1 = 43 ∨ c1 = 45 then
      -- a sign: one more character fits the width
      match r1 with
      | [] => .matchingFailure
      | c2 :: r2 =>
        if isxdigit c2 then
          .ok (if c1 = 45 then (2 ^ 32 - hexValue c2) % 2 ^ 32 else hexValue c2) r2
        else .matchingFailure
    else if isxdigit c1 then
      match r1 with
      | [] => .ok (hexValue c1) []
      | c2 :: r2 =>
        if isxdigit c2 then .ok (16 * hexValue c1 + hexValue c2) r2
        else if c1 = 48 ∧ (c2 = 120 ∨ c2 = 88) then
          -- the field is `0x`
          match lib with
          | .fails => .matchingFailure
          | .zeroConsumed => .ok 0 r2
          | .zeroStopped => .ok 0 r1
        else .ok (hexValue c1) r1
    else .matchingFailure

/-- `sscanf(pwd, "%2x...%2x", ...)` with `n` directives left: the return
value so far is `count`, the values stored so far are `tmp`.  The result is
the return value (`-1` is `EOF`) and the values stored. -/
def sscanf_2x (lib : BareHexPrefix) : Nat → List Nat → Int → List Nat → Int × List Nat
  | 0, _, count, tmp => (count, tmp)
  | n + 1, input, count, tmp =>
    match scan_2x lib input with
    | .inputFailure => (if count = 0 then -1 else count, tmp)
    | .matchingFailure => (count, tmp)
    | .ok v rest => sscanf_2x lib n rest (count + 1) (tmp ++ [v])

/-- `ev1_load_pwd` (lines 150-160) on the bytes of `target`: the return value
and `target` afterwards. -/
def ev1_load_pwd (lib : BareHexPrefix) (target : List Nat) (pwd : List Nat) :
    Bool × List Nat :=
  let (n, tmp) := sscanf_2x lib 4 pwd 0 []
  if n ≠ 4 then (false, target)
  else
    (true, [tmp.getD 0 0 % 256, tmp.getD 1 0 % 256, tmp.getD 2 0 % 256, tmp.getD 3 0 % 256]
      ++ target.drop 4)

/-! ## Magic-card detector (lines 194-240) -/

/-- How a loop body leaves: `returned` is a `return` out of the enclosing
function, `running` falls through to the next iteration; both carry the
function's locals. -/
inductive Flow (α : Type) where
  | returned (v : Bool) (a : α) (s : State)
  | running (a : α) (s : State)

/-- Body of the page loop of `check_magic` (lines 200-216); the local
`bFailure` is threaded through. -/
def check_magic_body (dev : Device) (page : Nat) (bFailure : Bool) (s : State) : Flow Bool :=
  let sel : Flow Bool :=
    if bFailure then
      let (res, s1) := nfc_initiator_select_passive_target dev s
      if res ≤ 0 then .returned false bFailure s1 else .running false s1
    else .running bFailure s
  match sel with
  | .returned v bF s1 => .returned v bF s1
  | .running bF s1 =>
    -- memcpy of the four bytes of uid_data = 0, memset of the next twelve
    let s2 := { s1 with mp := fun j => if j < 4 then 0 else if j < 4 + 12 then 0 else s1.mp j }
    let (_, s3) := nfc_initiator_mifare_cmd dev .MC_WRITE page s2
    .running bF s3

/-- The loop `for (page = 0; page <= 1; page++)` of `check_magic`. -/
def check_magic_loop (dev : Device) : Nat → Nat → Bool → State → Option (Flow Bool)
  | 0, _, _, _ => none
  | fuel + 1, page, bFailure, s =>
    if page ≤ 1 then
      match check_magic_body dev page bFailure s with
      | .returned v bF s1 => some (.returned v bF s1)
      | .running bF s1 => check_magic_loop dev fuel (page + 1) bF s1
    else some (.running bFailure s)

/-- The check of lines 223-225: bytes 0..7 of `mp.mpd.abtData` are all zero. -/
def first8Zero (s : State) : Bool :=
  (List.range 8).all fun i => s.mp i == 0

/-- `check_magic` (lines 194-240). -/
def check_magic (dev : Device) (crc : List Nat → Nat × Nat) (s : State) :
    Option (Bool × State) :=
  match check_magic_loop dev 3 0 false s with
  | none => none
  | some (.returned v _ s1) => some (v, s1)
  | some (.running _ s1) =>
    let (rd, s2) := nfc_initiator_mifare_cmd dev .MC_READ 0 s1
    if rd && first8Zero s2 then some (true, s2)
    else
      let (u, s3) := unlock_card dev crc s2
      if u then some (true, s3) else some (false, s3)

/-! ## Page I/O engine: write path (lines 35-42, 242-304) -/

/-- `print_success_or_failure` (lines 35-42) on the two counters it is handed;
both pointers are non-null at every call site.  The result is the new
(ok counter, failed counter). -/
def print_success_or_failure (bFailure : Bool) (uiOkCounter uiFailedCounter : Nat) :
    Nat × Nat :=
  ((uiOkCounter + (if bFailure then 0 else 1)) % 2 ^ 32,
   (uiFailedCounter + (if bFailure then 1 else 0)) % 2 ^ 32)

/-- Locals of `write_card`. -/
structure WriteVars where
  bFailure : Bool
  uiWrittenPages : Nat
  uiSkippedPages : Nat
  uiFailedPages : Nat

/-- Body of the page loop of `write_card` (lines 270-298).  The `memset` of
line 295 clears `uiBlocks - uiSkippedPages` bytes from offset 4; of these only
offsets below 16 lie inside `mp.mpd.abtData` and are sent (`mpData`). -/
def write_card_body (dev : Device) (write_otp write_lock : Bool) (page : Nat)
    (v : WriteVars) (s : State) : Flow WriteVars :=
  if page = 0x2 ∧ !write_lock then
    .running { v with uiSkippedPages := (v.uiSkippedPages + 1) % 2 ^ 32 } s
  else if page = 0x3 ∧ !write_otp then
    .running { v with uiSkippedPages := (v.uiSkippedPages + 1) % 2 ^ 32 } s
  else
    let sel : Flow WriteVars :=
      if v.bFailure then
        let (res, s1) := nfc_initiator_select_passive_target dev s
        if res ≤ 0 then .returned false v s1 else .running { v with bFailure := false } s1
      else .running v s
    match sel with
    | .returned b v1 s1 => .returned b v1 s1
    | .running v1 s1 =>
      let uiBlock := page / 4
      let n := (s1.uiBlocks + 2 ^ 32 - v1.uiSkippedPages) % 2 ^ 32
      let s2 := { s1 with mp := fun j =>
        if j < 4 then s1.mtDump uiBlock ((page % 4) * 4 + j)
        else if j < 4 + n then 0 else s1.mp j }
      let (ok, s3) := nfc_initiator_mifare_cmd dev .MC_WRITE page s2
      let bF := if !ok then true else v1.bFailure
      let c := print_success_or_failure bF v1.uiWrittenPages v1.uiFailedPages
      .running { v1 with bFailure := bF, uiWrittenPages := c.1, uiFailedPages := c.2 } s3

/-- The loop `for (page = uiSkippedPages; page < uiBlocks; page++)` of
`write_card`; the result is the function's return value with its locals.
`page` cannot wrap: it is below `uiBlocks` when incremented. -/
def write_card_loop (dev : Device) (write_otp write_lock : Bool) :
    Nat → Nat → WriteVars → State → Option (Bool × WriteVars × State)
  | 0, _, _, _ => none
  | fuel + 1, page, v, s =>
    if page < s.uiBlocks then
      match write_card_body dev write_otp write_lock page v s with
      | .returned b v1 s1 => some (b, v1, s1)
      | .running v1 s1 => write_card_loop dev write_otp write_lock fuel (page + 1) v1 s1
    else some (true, v, s)

set_option linter.unusedVariables false in
/-- `write_card` (lines 242-304): the return value, the locals as they stand
at the return, and the state.  The page loop gets `uiBlocks + 1` units of
fuel, one more than its iterations and the final test of its guard need. -/
def write_card (dev : Device) (crc : List Nat → Nat × Nat)
    (write_otp write_lock write_uid : Bool) (s : State) :
    Option (Bool × WriteVars × State) :=
  let v0 : WriteVars :=
    { bFailure := false, uiWrittenPages := 0, uiSkippedPages := 0, uiFailedPages := 0 }
  -- lines 252-254 overwrite the three parameters
  let write_otp := false
  let write_lock := false
  let write_uid := false
  if !write_uid then
    let v1 := { v0 with uiSkippedPages := 2 }
    write_card_loop dev write_otp write_lock (s.uiBlocks + 1) v1.uiSkippedPages v1 s
  else
    match check_magic dev crc s with
    | none => none
    | some (false, s1) => some (false, v0, s1)
    | some (true, s1) =>
      write_card_loop dev write_otp write_lock (s1.uiBlocks + 1) v0.uiSkippedPages v0 s1

/-! ## Page I/O engine: read path (lines 44-83) -/

/-- Locals of `read_card`. -/
structure ReadVars where
  bFailure : Bool
  uiFailedPages : Nat

/-- `memcpy(mtDump.amb[blk].mbd.abtData + off, src, len)` for a copy that stays
inside the block. -/
def memcpyBlock (mem : Nat → Nat → Nat) (blk off : Nat) (src : Nat → Nat) (len : Nat) :
    Nat → Nat → Nat :=
  fun b j => if b = blk ∧ off ≤ j ∧ j < off + len then src (j - off) else mem b j

/-- Body of the block loop of `read_card` (lines 53-61). -/
def read_card_body (dev : Device) (page : Nat) (v : ReadVars) (s : State) : ReadVars × State :=
  let (ok, s1) := nfc_initiator_mifare_cmd dev .MC_READ page s
  let len := if s1.uiBlocks - page < 4 then (s1.uiBlocks - page) * 4 else 16
  let s2 := if ok then { s1 with mtDump := memcpyBlock s1.mtDump (page / 4) 0 s1.mp len } else s1
  let bFailure := if ok then v.bFailure else true
  let n := if s2.uiBlocks - page < 4 then s2.uiBlocks - page else 4
  let c := (List.range n).foldl
    (fun c _ => print_success_or_failure bFailure c.1 c.2) (s2.uiReadPages, v.uiFailedPages)
  ({ bFailure := bFailure, uiFailedPages := c.2 }, { s2 with uiReadPages := c.1 })

/-- The loop `for (page = 0; page < uiBlocks; page += 4)` of `read_card`;
`page` is a `uint32_t`. -/
def read_card_loop (dev : Device) : Nat → Nat → ReadVars → State → Option (ReadVars × State)
  | 0, _, _, _ => none
  | fuel + 1, page, v, s =>
    if page < s.uiBlocks then
      let (v1, s1) := read_card_body dev page v s
      read_card_loop dev fuel ((page + 4) % 2 ^ 32) v1 s1
    else some (v, s)

/-- `read_card` (lines 44-83): the return value, the locals as they stand at
the return, and the state.  The block loop gets `uiBlocks + 1` units of fuel,
enough for its iterations and the final test of its guard unless `page`
wraps, in which case the loop of the source never ends. -/
def read_card (dev : Device) (h : NfcH) (s : State) : Option (Bool × ReadVars × State) :=
  match read_card_loop dev (s.uiBlocks + 1) 0 { bFailure := false, uiFailedPages := 0 } s with
  | none => none
  | some (v, s1) =>
    let s2 :=
      match s1.iEV1Type with
      | .EV1_UL11 =>
        let m1 := memcpyBlock s1.mtDump 4 h.mbc11_pwd s1.iPWD 4
        { s1 with mtDump := memcpyBlock m1 4 h.mbc11_pack s1.iPACK 2 }
      | .EV1_UL21 =>
        let m1 := memcpyBlock s1.mtDump 9 h.mbc21a_pwd s1.iPWD 4
        { s1 with mtDump := memcpyBlock m1 9 h.mbc21b_pack s1.iPACK 2 }
      | .EV1_NONE => s1
    some (!v.bFailure, v, s2)

/-! ## Game record codec and the two entry points (lines 357-621) -/

/-- A `std::string` is the list of its bytes, each as an unsigned value;
`cstr` gives the bytes of a literal. -/
def cstr (s : String) : List Nat :=
  s.toList.map Char.toNat

/-- The record `game` of `nfc.h`: two `std::string` members. -/
structure game where
  gametype : List Nat
  filename : List Nat

/-- `mtDump.amb[blk].mbd.abtData[j] = v`. -/
def setByte (mem : Nat → Nat → Nat) (blk j v : Nat) : Nat → Nat → Nat :=
  fun b k => if b = blk ∧ k = j then v else mem b k

/-- Lines 460-482: the type string for the byte at block 1, byte 0.  Line 460
assigns the byte itself as a one-character string; the `switch` replaces it
for the six enumerators. -/
def decodeGametype (h : NfcH) (b : Nat) : List Nat :=
  if b = h.NES then cstr "nes"
  else if b = h.SNES then cstr "snes"
  else if b = h.GB then cstr "GB"
  else if b = h.GBC then cstr "GBC"
  else if b = h.GBA then cstr "GBA"
  else if b = h.GENESIS then cstr "genesis"
  else [b]

/-- Inner loop of lines 486-494 on block `blk`: `n` iterations are left, `j`
is the byte index, `acc` the filename so far; a zero byte breaks the loop. -/
def decodeName_inner (mem : Nat → Nat → Nat) (blk : Nat) : Nat → Nat → List Nat → List Nat
  | 0, _, acc => acc
  | n + 1, j, acc =>
    if mem blk j ≠ 0 then decodeName_inner mem blk n (j + 1) (acc ++ [mem blk j]) else acc

/-- Outer loop of lines 484-495: `n` iterations are left, `i` is the loop
variable. -/
def decodeName_outer (mem : Nat → Nat → Nat) : Nat → Nat → List Nat → List Nat
  | 0, _, acc => acc
  | n + 1, i, acc => decodeName_outer mem n (i + 1) (decodeName_inner mem (i + 3) 16 0 acc)

/-- The record decoder of `readGame` (lines 460-495); the outer loop runs for
`i = 0 .. mtDump.amb[2].mbd.abtData[0] / 16`. -/
def decodeGame (h : NfcH) (mem : Nat → Nat → Nat) : game :=
  { gametype := decodeGametype h (mem 1 0)
    filename := decodeName_outer mem (mem 2 0 / 16 + 1) 0 [] }

/-- Lines 584-588: blocks `1 .. uiBlocks - 1` are cleared, 16 bytes each. -/
def zeroBlocks (uiBlocks : Nat) (mem : Nat → Nat → Nat) : Nat → Nat → Nat :=
  (List.range' 1 (uiBlocks - 1)).foldl
    (fun m i => (List.range 16).foldl (fun m j => setByte m i j 0) m) mem

/-- Lines 590-601: the type code is stored for a recognised type string and
nothing is stored otherwise. -/
def encodeGametype (h : NfcH) (gametype : List Nat) (mem : Nat → Nat → Nat) : Nat → Nat → Nat :=
  if gametype = cstr "nes" then setByte mem 1 0 (h.NES % 256)
  else if gametype = cstr "snes" then setByte mem 1 0 (h.SNES % 256)
  else if gametype = cstr "gb" then setByte mem 1 0 (h.GB % 256)
  else if gametype = cstr "gbc" then setByte mem 1 0 (h.GBC % 256)
  else if gametype = cstr "gba" then setByte mem 1 0 (h.GBA % 256)
  else if gametype = cstr "genesis" ∨ gametype = cstr "megadrive" then
    setByte mem 1 0 (h.GENESIS % 256)
  else mem

/-- Inner loop of lines 609-618 on block `blk`: `n` iterations are left, `j`
is the byte index; the state is the memory and the rest `temp` of the
filename; an empty `temp` breaks the loop. -/
def encodeName_inner (blk : Nat) :
    Nat → Nat → (Nat → Nat → Nat) × List Nat → (Nat → Nat → Nat) × List Nat
  | 0, _, st => st
  | n + 1, j, (m, temp) =>
    match temp with
    | [] => (m, temp)
    | c :: rest => encodeName_inner blk n (j + 1) (setByte m blk j c, rest)

/-- Outer loop of lines 607-619: `n` iterations are left, `i` is the loop
variable. -/
def encodeName_outer :
    Nat → Nat → (Nat → Nat → Nat) × List Nat → (Nat → Nat → Nat) × List Nat
  | 0, _, st => st
  | n + 1, i, st => encodeName_outer n (i + 1) (encodeName_inner (i + 3) 16 0 st)

/-- The record encoder of `writeGame` (lines 584-619) on the staging memory;
the length byte is a `uint8_t`, and the outer loop runs for
`i = 0 .. out.filename.length() / 16`. -/
def encodeGame (h : NfcH) (uiBlocks : Nat) (out : game) (mem : Nat → Nat → Nat) :
    Nat → Nat → Nat :=
  let m1 := zeroBlocks uiBlocks mem
  let m2 := encodeGametype h out.gametype m1
  let m3 := setByte m2 2 0 (out.filename.length % 256)
  (encodeName_outer (out.filename.length / 16 + 1) 0 (m3, out.filename)).1

/-- The first `n` bytes of `mtDump`, block after block, as `fwrite` sends
them. -/
def dumpBytes (mem : Nat → Nat → Nat) (n : Nat) : List Nat :=
  (List.range n).map fun a => mem (a / 16) (a % 16)

/-- How an entry point ends: the process exits (`exit(EXIT_FAILURE)`) or the
function returns a value. -/
inductive Ending (α : Type) where
  | exited
  | returned (a : α)

/-- Lines 370-429 and 514-573, common to both entry points: library context,
device, tag selection, ATQA test.  `false` is the early return, after which
the context and device have been released as the source does. -/
def openTag (dev : Device) (s : State) : Bool × State :=
  let (ctx, s1) := exec dev .nfc_init s
  if ctx.res = 0 then (false, s1)
  else
    let (pnd, s2) := exec dev .nfc_open s1
    if pnd.res = 0 then
      let (_, s3) := exec dev .nfc_exit s2
      (false, s3)
    else
      let (sel, s3) := nfc_initiator_select_passive_target dev s2
      if sel ≤ 0 then
        let (_, s4) := exec dev .nfc_close s3
        let (_, s5) := exec dev .nfc_exit s4
        (false, s5)
      else if s3.atqa1 ≠ 0x44 then
        let (_, s4) := exec dev .nfc_close s3
        let (_, s5) := exec dev .nfc_exit s4
        (false, s5)
      else (true, s3)

/-- `readGame` (lines 357-501). -/
def readGame (dev : Device) (h : NfcH) (s : State) : Option (Ending game × State) :=
  let temp : game := { gametype := cstr "", filename := cstr "" }
  let (ok, s1) := openTag dev s
  if !ok then some (.returned temp, s1)
  else
    match read_card dev h s1 with
    | none => none
    | some (_, _, s2) =>
      let (pfDump, s3) := exec dev .fopen s2
      if pfDump.res = 0 then
        let (_, s4) := exec dev .nfc_close s3
        let (_, s5) := exec dev .nfc_exit s4
        some (.exited, s5)
      else
        let len := (s3.uiReadPages * 4) % 2 ^ 32
        let (w, s4) := exec dev (.fwrite (dumpBytes s3.mtDump len)) s3
        if w.res ≠ len then
          let (_, s5) := exec dev .fclose s4
          let (_, s6) := exec dev .nfc_close s5
          let (_, s7) := exec dev .nfc_exit s6
          some (.exited, s7)
        else
          let (_, s5) := exec dev .fclose s4
          let g := decodeGame h s5.mtDump
          let (_, s6) := exec dev .nfc_close s5
          let (_, s7) := exec dev .nfc_exit s6
          some (.returned g, s7)

/-- `writeGame` up to the call of `write_card` (lines 504-619): `returned
false` is an early return, `running` carries the state that is handed to
`write_card`. -/
def writeGame_stage (dev : Device) (h : NfcH) (out : game) (s : State) : Option (Flow Unit) :=
  let (ok, s1) := openTag dev s
  if !ok then some (.returned false () s1)
  else
    match read_card dev h s1 with
    | none => none
    | some (_, _, s2) =>
      some (.running () { s2 with mtDump := encodeGame h s2.uiBlocks out s2.mtDump })

/-- `writeGame` (lines 504-621). -/
def writeGame (dev : Device) (crc : List Nat → Nat × Nat) (h : NfcH) (out : game) (s : State) :
    Option (Bool × State) :=
  match writeGame_stage dev h out s with
  | none => none
  | some (.returned b _ s1) => some (b, s1)
  | some (.running _ s1) =>
    match write_card dev crc false false false s1 with
    | none => none
    | some (b, _, s2) => some (b, s2)

/-! ### Trace vocabulary for the write path -/

/-- The four bytes of page `page` of the staging memory, as line 294 reads
them: `mtDump.amb[page / 4].mbd.abtData + (page % 4) * 4`. -/
def pageBytes (mem : Nat → Nat → Nat) (page : Nat) : List Nat :=
  (List.range 4).map fun j => mem (page / 4) ((page % 4) * 4 + j)

/-- The exchange is a page write (`MC_WRITE`). -/
def isWrite (e : Event) : Bool :=
  match e.1 with
  | .mifare_cmd .MC_WRITE _ _ => true
  | _ => false

/-- The exchange is a page write that the device reported as failed. -/
def isFailedWrite (e : Event) : Bool :=
  isWrite e && decide (e.2.res = 0)

/-- The exchange is a reselection attempt. -/
def isSelect (e : Event) : Bool :=
  match e.1 with
  | .select_passive_target => true
  | _ => false

/-- The exchange is a reselection attempt that failed (result `<= 0`). -/
def isFailedSelect (e : Event) : Bool :=
  isSelect e && decide (e.2.res ≤ 0)

/-- The page a write command addresses; `none` for every other command. -/
def writeTarget (e : Event) : Option Nat :=
  match e.1 with
  | .mifare_cmd .MC_WRITE page _ => some page
  | _ => none

/-- Shape of the exchanges of the page loop of `write_card` from page `page`
on with the failure flag `bF`: the exchanges, the return value, and the
numbers of pages written and failed. -/
inductive WriteRun (mem : Nat → Nat → Nat) (N : Nat) :
    Nat → Bool → List Event → Bool → Nat → Nat → Prop
  | done (page : Nat) (bF : Bool) : N ≤ page → WriteRun mem N page bF [] true 0 0
  | lost (page : Nat) (rep : Reply) : page < N → rep.res ≤ 0 →
      WriteRun mem N page true [(.select_passive_target, rep)] false 0 0
  | reselected (page : Nat) (rep : Reply) (ev : List Event) (ret : Bool) (a b : Nat) :
      page < N → 0 < rep.res → WriteRun mem N page false ev ret a b →
      WriteRun mem N page true ((.select_passive_target, rep) :: ev) ret a b
  | wrote (page : Nat) (data : List Nat) (rep : Reply) (ev : List Event) (ret : Bool)
      (a b : Nat) :
      page < N → data.take 4 = pageBytes mem page → rep.res ≠ 0 →
      WriteRun mem N (page + 1) false ev ret a b →
      WriteRun mem N page false ((.mifare_cmd .MC_WRITE page data, rep) :: ev) ret (a + 1) b
  | failed (page : Nat) (data : List Nat) (rep : Reply) (ev : List Event) (ret : Bool)
      (a b : Nat) :
      page < N → data.take 4 = pageBytes mem page → rep.res = 0 →
      WriteRun mem N (page + 1) true ev ret a b →
      WriteRun mem N page false ((.mifare_cmd .MC_WRITE page data, rep) :: ev) ret a (b + 1)

/-- The statics of `nfc.cpp` as their initialisers leave them (lines 3-28). -/
def initState : State where
  mtDump := fun _ _ => 0
  mp := fun _ => 0
  uiBlocks := 0x20
  uiReadPages := 0
  iPWD := fun _ => 0
  iPACK := fun _ => 0
  iEV1Type := .EV1_NONE
  abtRx := []
  szRxBits := 0
  szRx := 0
  atqa1 := 0
  log := []

/-- A device on which every call succeeds except bit-frame transmission. -/
def devBitsFail : Device := fun _ c =>
  match c with
  | .transceive_bits _ _ => ⟨-1, []⟩
  | _ => ⟨1, []⟩

/-- A device on which every call succeeds except byte-frame transmission. -/
def devBytesFail : Device := fun _ c =>
  match c with
  | .transceive_bytes _ => ⟨-1, []⟩
  | _ => ⟨1, []⟩

/-- The buffer `mp.mpd.abtData` as lines 294-295 leave it before the write of
`page`. -/
def stagedMp (s : State) (v : WriteVars) (page : Nat) : Nat → Nat := fun j =>
  if j < 4 then s.mtDump (page / 4) ((page % 4) * 4 + j)
  else if j < 4 + (s.uiBlocks + 2 ^ 32 - v.uiSkippedPages) % 2 ^ 32 then 0 else s.mp j

/-- The write command that `write_card` issues for `page`. -/
def writeCmd (s : State) (v : WriteVars) (page : Nat) : Cmd :=
  .mifare_cmd .MC_WRITE page ((List.range 16).map (stagedMp s v page))

/-- Adjacency in a run: nothing follows a failed reselection, nothing follows
the write of the last page, and an exchange is a reselection exactly when the
exchange before it is a failed page write. -/
def WriteAdjacent (N : Nat) (e1 e2 : Event) : Prop :=
  isFailedSelect e1 = false ∧ writeTarget e1 ≠ some (N - 1) ∧
    (isSelect e2 = true ↔ isFailedWrite e1 = true)

/-- What an exchange is, with replies and payloads left out. -/
inductive Step where
  | reselect
  | write (page : Nat)
  | other
  deriving DecidableEq, Repr

/-- The step an exchange stands for. -/
def stepOf (e : Event) : Step :=
  match e.1 with
  | .select_passive_target => .reselect
  | .mifare_cmd .MC_WRITE page _ => .write page
  | _ => .other

/-- In the exchanges `ev` the write of page `k` is the only page write that
fails. -/
def OnlyPageFails (k : Nat) (ev : List Event) : Prop :=
  ∀ e ∈ ev, isWrite e = true → (isFailedWrite e = true ↔ writeTarget e = some k)

/-- In the exchanges `ev` every reselection succeeds. -/
def SelectsSucceed (ev : List Event) : Prop :=
  ∀ e ∈ ev, isSelect e = true → isFailedSelect e = false

instance (k : Nat) (ev : List Event) : Decidable (OnlyPageFails k ev) := by
  unfold OnlyPageFails
  infer_instance

instance (ev : List Event) : Decidable (SelectsSucceed ev) := by
  unfold SelectsSucceed
  infer_instance

/-- A device that rejects the write of page 10 and accepts everything else. -/
def devPage10 : Device := fun _ c =>
  match c with
  | .mifare_cmd .MC_WRITE 10 _ => ⟨0, []⟩
  | _ => ⟨1, []⟩

/-- The type strings that `writeGame` recognises, each with its code. -/
def recognisedTypes (h : NfcH) : List (List Nat × Nat) :=
  [(cstr "nes", h.NES), (cstr "snes", h.SNES), (cstr "gb", h.GB), (cstr "gbc", h.GBC),
   (cstr "gba", h.GBA), (cstr "genesis", h.GENESIS), (cstr "megadrive", h.GENESIS)]

/-- The GameRecord layout in the blocks `1 .. N - 1` of a staging memory:
type code `c` at byte 0 of block 1, the filename length at byte 0 of block 2,
filename byte `k` at byte `k mod 16` of block `3 + k div 16`, zero in every
other byte. -/
def RecordLayout (N : Nat) (c : Nat) (filename : List Nat) (mem : Nat → Nat → Nat) : Prop :=
  mem 1 0 = c ∧ mem 2 0 = filename.length ∧
  (∀ k, k < filename.length → mem (3 + k / 16) (k % 16) = filename.getD k 0) ∧
  (∀ b j, 1 ≤ b → b < N → j < 16 → ¬ (b = 1 ∧ j = 0) → ¬ (b = 2 ∧ j = 0) →
    (¬ ∃ k, k < filename.length ∧ b = 3 + k / 16 ∧ j = k % 16) → mem b j = 0)

/-- A filename of `n` bytes fits a tag of `N` pages: its bytes, stored from
block 3 (page 12) on, end within the tag, and `n` fits the length byte. -/
def FitsTag (N n : Nat) : Prop :=
  48 + n ≤ 4 * N ∧ n < 256

/-- A device on which every call succeeds, whose tag answers the selection
with ATQA bytes `00 44` and every read with the bytes `1 .. 16`. -/
def devGood : Device := fun _ c =>
  match c with
  | .select_passive_target => ⟨1, [0x00, 0x44]⟩
  | .mifare_cmd .MC_READ _ _ => ⟨1, [1, 2, 3, 4, 5, 6, 7, 8, 9, 10, 11, 12, 13, 14, 15, 16]⟩
  | .fwrite data => ⟨data.length, []⟩
  | _ => ⟨1, []⟩

/-- An instance of the declarations of `nfc.h` for concrete runs: the
enumerators numbered from 1, the EV1 fields at the offsets of libnfc's
`mifare.h`. -/
def exampleH : NfcH where
  NES := 1
  SNES := 2
  GB := 3
  GBC := 4
  GBA := 5
  GENESIS := 6
  mbc11_pwd := 8
  mbc11_pack := 12
  mbc21a_pwd := 12
  mbc21b_pack := 0

/-- A tag memory that holds the record with type code `c` and the filename
`filename` in the GameRecord layout, all other bytes zero. -/
def recordMem (c : Nat) (filename : List Nat) : Nat → Nat → Nat :=
  fun b j =>
    if b = 1 ∧ j = 0 then c
    else if b = 2 ∧ j = 0 then filename.length
    else if 3 ≤ b ∧ j < 16 then filename.getD (16 * (b - 3) + j) 0
    else 0

/-- A device on which every call succeeds except the read of page 0. -/
def devFirstReadFails : Device := fun _ c =>
  match c with
  | .mifare_cmd .MC_READ 0 _ => ⟨0, []⟩
  | c => devGood [] c

/-- The lengths of the dump that the `fwrite` calls in a log carry. -/
def dumpLengths (log : List Event) : List Nat :=
  log.filterMap fun e =>
    match e.1 with
    | .fwrite data => some data.length
    | _ => none

/-- A 30-page tag whose staging memory holds `0xFF` in every byte. -/
def state30 : State :=
  { initState with uiBlocks := 30, mtDump := fun _ _ => 0xFF }

/-! ### Password strings in words

The character classes are spelled out and do not use the predicates of the
embedding.  A field is optional white space followed by two hexadecimal
digits, or by one hexadecimal digit that no further digit follows, or by a
sign and one hexadecimal digit.  In the patterns below `+` is 43, `-` is 45,
`0` is 48, `x` is 120 and `X` is 88. -/

/-- White space: space, `\t`, `\n`, `\v`, `\f`, `\r`. -/
def WhiteSpace (c : Nat) : Prop :=
  c ∈ [32, 9, 10, 11, 12, 13]

/-- A hexadecimal digit, upper or lower case. -/
def HexDigit (c : Nat) : Prop :=
  c ∈ cstr "0123456789ABCDEFabcdef"

/-- The value of a hexadecimal digit: its place in `0123456789abcdef` or in
`0123456789ABCDEF`. -/
def digitValue (c : Nat) : Nat :=
  min ((cstr "0123456789abcdef").indexOf c) ((cstr "0123456789ABCDEF").indexOf c)

instance (c : Nat) : Decidable (WhiteSpace c) := by
  unfold WhiteSpace
  infer_instance

instance (c : Nat) : Decidable (HexDigit c) := by
  unfold HexDigit
  infer_instance

/-- `FieldAt input v rest`: `input` starts with a field of value `v` and
`rest` follows it.  The value of `-d` is the `unsigned int` `2^32 - d`. -/
inductive FieldAt : List Nat → Nat → List Nat → Prop
  | two (ws : List Nat) (d1 d2 : Nat) (rest : List Nat) :
      (∀ c ∈ ws, WhiteSpace c) → HexDigit d1 → HexDigit d2 →
      FieldAt (ws ++ d1 :: d2 :: rest) (16 * digitValue d1 + digitValue d2) rest
  | one (ws : List Nat) (d : Nat) (rest : List Nat) :
      (∀ c ∈ ws, WhiteSpace c) → HexDigit d →
      (∀ c ∈ rest.head?, ¬ HexDigit c ∧ ¬ (d = 48 ∧ (c = 120 ∨ c = 88))) →
      FieldAt (ws ++ d :: rest) (digitValue d) rest
  | plus (ws : List Nat) (d : Nat) (rest : List Nat) :
      (∀ c ∈ ws, WhiteSpace c) → HexDigit d →
      FieldAt (ws ++ 43 :: d :: rest) (digitValue d) rest
  | minus (ws : List Nat) (d : Nat) (rest : List Nat) :
      (∀ c ∈ ws, WhiteSpace c) → HexDigit d →
      FieldAt (ws ++ 45 :: d :: rest) ((2 ^ 32 - digitValue d) % 2 ^ 32) rest

/-- `NoField input`: no field starts `input`: after white space the string
ends, or continues with a character that is neither a hexadecimal digit nor a
sign, or with a sign that no hexadecimal digit follows. -/
inductive NoField : List Nat → Prop
  | ended (ws : List Nat) : (∀ c ∈ ws, WhiteSpace c) → NoField ws
  | badChar (ws : List Nat) (c : Nat) (rest : List Nat) :
      (∀ w ∈ ws, WhiteSpace w) → ¬ WhiteSpace c → ¬ HexDigit c →
      c ≠ 43 → c ≠ 45 → NoField (ws ++ c :: rest)
  | badSign (ws : List Nat) (sg : Nat) (rest : List Nat) :
      (∀ w ∈ ws, WhiteSpace w) → (sg = 43 ∨ sg = 45) →
      (∀ c ∈ rest.head?, ¬ HexDigit c) → NoField (ws ++ sg :: rest)

/-- `StartsZeroX input`: after white space `input` continues with `0x` or
`0X`. -/
inductive StartsZeroX : List Nat → Prop
  | mk (ws : List Nat) (c : Nat) (rest : List Nat) :
      (∀ w ∈ ws, WhiteSpace w) → (c = 120 ∨ c = 88) →
      StartsZeroX (ws ++ 48 :: c :: rest)

/-- `Parses n input vs`: `input` starts with `n` fields of values `vs`;
anything may follow them. -/
inductive Parses : Nat → List Nat → List Nat → Prop
  | done (input : List Nat) : Parses 0 input []
  | field (n : Nat) (input : List Nat) (v : Nat) (rest : List Nat) (vs : List Nat) :
      FieldAt input v rest → Parses n rest vs → Parses (n + 1) input (v :: vs)

/-- `Fails n input`: fewer than `n` fields start `input`, and where the next
one should start there is none. -/
inductive Fails : Nat → List Nat → Prop
  | here (n : Nat) (input : List Nat) : NoField input → Fails (n + 1) input
  | later (n : Nat) (input : List Nat) (v : Nat) (rest : List Nat) :
      FieldAt input v rest → Fails n rest → Fails (n + 1) input

/-- `HasZeroX n input`: fewer than `n` fields start `input`, and where the
next one should start there is `0x` or `0X`. -/
inductive HasZeroX : Nat → List Nat → Prop
  | here (n : Nat) (input : List Nat) : StartsZeroX input → HasZeroX (n + 1) input
  | later (n : Nat) (input : List Nat) (v : Nat) (rest : List Nat) :
      FieldAt input v rest → HasZeroX n rest → HasZeroX (n + 1) input

/-- Strings other than 8 hexadecimal characters that `ev1_load_pwd` accepts:
trailing characters, fields of one digit separated by white space, signed
digits, seven characters. -/
def OtherStrings (lib : BareHexPrefix) : Prop :=
  (cstr "DEADBEEF00").length = 10 ∧
  ev1_load_pwd lib [0, 0, 0, 0] (cstr "DEADBEEF00") = (true, [0xDE, 0xAD, 0xBE, 0xEF]) ∧
  ev1_load_pwd lib [0, 0, 0, 0] (cstr "D E A D") = (true, [0x0D, 0x0E, 0x0A, 0x0D]) ∧
  ev1_load_pwd lib [0, 0, 0, 0] (cstr "+1+2+3+4") = (true, [1, 2, 3, 4]) ∧
  ev1_load_pwd lib [0, 0, 0, 0] (cstr "DEADBEE") = (true, [0xDE, 0xAD, 0xBE, 0x0E])

instance (lib : BareHexPrefix) : Decidable (OtherStrings lib) := by
  unfold OtherStrings
  infer_instance

/-- Strings with 6 to 8 hexadecimal digits that `ev1_load_pwd` rejects, the
target left as it was. -/
def RejectedStrings (lib : BareHexPrefix) : Prop :=
  ev1_load_pwd lib [1, 2, 3, 4] (cstr "DE:AD:BE:EF") = (false, [1, 2, 3, 4]) ∧
  ev1_load_pwd lib [1, 2, 3, 4] (cstr "zzDEADBEEF") = (false, [1, 2, 3, 4]) ∧
  ev1_load_pwd lib [1, 2, 3, 4] (cstr "GEADBEEF") = (false, [1, 2, 3, 4]) ∧
  ev1_load_pwd lib [1, 2, 3, 4] (cstr "DEADBEzz") = (false, [1, 2, 3, 4]) ∧
  ev1_load_pwd lib [1, 2, 3, 4] (cstr "DEADBE") = (false, [1, 2, 3, 4]) ∧
  ev1_load_pwd lib [1, 2, 3, 4] (cstr "") = (false, [1, 2, 3, 4])

instance (lib : BareHexPrefix) : Decidable (RejectedStrings lib) := by
  unfold RejectedStrings
  infer_instance

/-! # Theorems -/

/-! ## Theorems: raw mode and magic-card detection -/

/-- C1 (evaluation at the failing inputs): with `raw_mode_start` succeeding,
`unlock_card` on a device that rejects the 7-bit unlock frame and `ev1_pwd_auth`
on a device that rejects the byte frame both return false after issuing
exactly the two raw-mode-start property calls and their transmissions: no
`raw_mode_end` call (no `set_property_bool ..., true`) is made before the
return. -/
theorem raw_mode_left_on_failure (crc : List Nat → Nat × Nat) (pwd : List Nat) :
    (unlock_card devBitsFail crc initState).1 = false ∧
    (unlock_card devBitsFail crc initState).2.log.map Prod.fst =
      [.set_property_bool .NP_HANDLE_CRC false, .set_property_bool .NP_EASY_FRAMING false,
       .transceive_bytes (iso14443a_crc_append crc [0x50, 0x00, 0x00, 0x00] 2),
       .transceive_bits [0x40] 7] ∧
    (ev1_pwd_auth devBytesFail crc pwd initState).1 = false ∧
    (ev1_pwd_auth devBytesFail crc pwd initState).2.log.map Prod.fst =
      [.set_property_bool .NP_HANDLE_CRC false, .set_property_bool .NP_EASY_FRAMING false,
       .transceive_bytes
         ((iso14443a_crc_append crc ([0x1B] ++ pwd.take 4 ++ [0x00, 0x00]) 5).take 7)] := by
  refine ⟨?_, ?_, ?_, ?_⟩ <;>
    simp [unlock_card, ev1_pwd_auth, raw_mode_start, transmit_bytes, transmit_bits, exec,
      devBitsFail, devBytesFail, initState, iso14443a_crc_append]

/-- The write loop of `check_magic` never reselects and never returns early:
it is two unconditional writes of 16 zero bytes. -/
theorem check_magic_loop_eq (dev : Device) (s : State) :
    ∃ s2 : State,
      check_magic_loop dev 3 0 false s = some (.running false s2) ∧
      s2.log = s.log ++
        [(.mifare_cmd .MC_WRITE 0 (List.replicate 16 0),
            dev s.log (.mifare_cmd .MC_WRITE 0 (List.replicate 16 0))),
         (.mifare_cmd .MC_WRITE 1 (List.replicate 16 0),
            dev (s.log ++ [(.mifare_cmd .MC_WRITE 0 (List.replicate 16 0),
                dev s.log (.mifare_cmd .MC_WRITE 0 (List.replicate 16 0)))])
              (.mifare_cmd .MC_WRITE 1 (List.replicate 16 0)))] := by
  have hz : ∀ f : Nat → Nat,
      (List.range 16).map (fun j => if j < 4 then 0 else if j < 4 + 12 then 0 else f j)
        = List.replicate 16 0 := by
    intro f
    simp [List.range_succ, List.replicate]
  simp only [check_magic_loop, check_magic_body, nfc_initiator_mifare_cmd, exec, mpData, hz]
  simp

/-- C10: for every device, `check_magic` returns; it first writes 16 zero
bytes to page 0, then 16 zero bytes to page 1 (whatever the two replies
`r0`, `r1` are), then reads page 0.  If that read succeeds and the first 8
bytes of the response are zero it returns true with no further exchange (so
no unlock frame is sent); in every other case it runs `unlock_card` from the
state reached after the read and returns exactly its result. -/
theorem check_magic_result (dev : Device) (crc : List Nat → Nat × Nat) (s : State) :
    ∃ (r0 r1 r2 : Reply) (s3 : State) (out : Bool × State),
      check_magic dev crc s = some out ∧
      r0 = dev s.log (.mifare_cmd .MC_WRITE 0 (List.replicate 16 0)) ∧
      r1 = dev (s.log ++ [(.mifare_cmd .MC_WRITE 0 (List.replicate 16 0), r0)])
            (.mifare_cmd .MC_WRITE 1 (List.replicate 16 0)) ∧
      r2 = dev (s.log ++ [(.mifare_cmd .MC_WRITE 0 (List.replicate 16 0), r0),
              (.mifare_cmd .MC_WRITE 1 (List.replicate 16 0), r1)])
            (.mifare_cmd .MC_READ 0 []) ∧
      s3.log = s.log ++ [(.mifare_cmd .MC_WRITE 0 (List.replicate 16 0), r0),
        (.mifare_cmd .MC_WRITE 1 (List.replicate 16 0), r1),
        (.mifare_cmd .MC_READ 0 [], r2)] ∧
      ((r2.res ≠ 0 ∧ ∀ i < 8, r2.data.getD i 0 = 0) → out = (true, s3)) ∧
      (¬ (r2.res ≠ 0 ∧ ∀ i < 8, r2.data.getD i 0 = 0) → out = unlock_card dev crc s3) := by
  obtain ⟨s2, hloop, hlog⟩ := check_magic_loop_eq dev s
  have hcm : check_magic dev crc s = some
      (if (nfc_initiator_mifare_cmd dev .MC_READ 0 s2).1 &&
          first8Zero (nfc_initiator_mifare_cmd dev .MC_READ 0 s2).2
        then (true, (nfc_initiator_mifare_cmd dev .MC_READ 0 s2).2)
        else unlock_card dev crc (nfc_initiator_mifare_cmd dev .MC_READ 0 s2).2) := by
    simp only [check_magic, hloop]
    split
    · rfl
    · generalize unlock_card dev crc (nfc_initiator_mifare_cmd dev .MC_READ 0 s2).2 = u
      obtain ⟨b, x⟩ := u
      cases b <;> rfl
  have hrd : (nfc_initiator_mifare_cmd dev .MC_READ 0 s2).1 =
      decide ((dev s2.log (.mifare_cmd .MC_READ 0 [])).res ≠ 0) := by
    simp only [nfc_initiator_mifare_cmd, exec]
    split <;> simp_all
  have hz : ((dev s2.log (.mifare_cmd .MC_READ 0 [])).res ≠ 0) →
      (first8Zero (nfc_initiator_mifare_cmd dev .MC_READ 0 s2).2 = true ↔
        ∀ i < 8, (dev s2.log (.mifare_cmd .MC_READ 0 [])).data.getD i 0 = 0) := by
    intro h
    simp only [nfc_initiator_mifare_cmd, exec, first8Zero, if_pos h]
    simp [List.range_succ]
    constructor
    · rintro ⟨h0, h1, h2, h3, h4, h5, h6, h7⟩ i hi
      interval_cases i <;> assumption
    · intro hall
      exact ⟨hall 0 (by norm_num), hall 1 (by norm_num), hall 2 (by norm_num),
        hall 3 (by norm_num), hall 4 (by norm_num), hall 5 (by norm_num),
        hall 6 (by norm_num), hall 7 (by norm_num)⟩
  rw [hlog] at hrd hz
  refine ⟨dev s.log (.mifare_cmd .MC_WRITE 0 (List.replicate 16 0)), _, _,
    (nfc_initiator_mifare_cmd dev .MC_READ 0 s2).2, _, hcm, rfl, rfl, rfl, ?_, ?_, ?_⟩
  · simp only [nfc_initiator_mifare_cmd, exec, hlog]
    split <;> simp
  · rintro ⟨h1, h2⟩
    rw [if_pos]
    rw [hrd, (hz h1).mpr h2, decide_eq_true h1]
    rfl
  · intro hn
    rw [if_neg]
    intro hc
    apply hn
    simp only [Bool.and_eq_true, hrd, decide_eq_true_eq] at hc
    exact ⟨hc.1, (hz hc.1).mp hc.2⟩

/-! ## Theorems: write path -/

theorem stagedMp_take (s : State) (v : WriteVars) (page : Nat) :
    ((List.range 16).map (stagedMp s v page)).take 4 = pageBytes s.mtDump page := by
  simp [pageBytes, List.range_succ, stagedMp]

/-- One page write from a state whose failure flag is clear (page 4 or above,
both skip flags false). -/
theorem write_card_body_clear (dev : Device) (page : Nat) (v : WriteVars) (s : State)
    (hp : 4 ≤ page) (hb : v.bFailure = false) :
    write_card_body dev false false page v s =
      .running
        { v with
          bFailure := decide ((dev s.log (writeCmd s v page)).res = 0)
          uiWrittenPages := (v.uiWrittenPages +
            (if (dev s.log (writeCmd s v page)).res = 0 then 0 else 1)) % 2 ^ 32
          uiFailedPages := (v.uiFailedPages +
            (if (dev s.log (writeCmd s v page)).res = 0 then 1 else 0)) % 2 ^ 32 }
        { s with
          mp := stagedMp s v page
          log := s.log ++ [(writeCmd s v page, dev s.log (writeCmd s v page))] } := by
  have h2 : page ≠ 2 := by omega
  have h3 : page ≠ 3 := by omega
  simp only [write_card_body, h2, h3, hb, nfc_initiator_mifare_cmd, exec, mpData,
    print_success_or_failure]
  by_cases h : (dev s.log (writeCmd s v page)).res = 0
  · unfold writeCmd stagedMp at h ⊢
    norm_num at h
    simp [h, hb]
  · unfold writeCmd stagedMp at h ⊢
    norm_num at h
    simp [h, hb]

/-- One iteration from a state whose failure flag is set (page 4 or above):
the reselection comes first; if it fails the function returns false, otherwise
the iteration continues with the flag cleared. -/
theorem write_card_body_flagged (dev : Device) (page : Nat) (v : WriteVars) (s : State)
    (hp : 4 ≤ page) (hb : v.bFailure = true) :
    write_card_body dev false false page v s =
      if (dev s.log .select_passive_target).res ≤ 0 then
        .returned false v (nfc_initiator_select_passive_target dev s).2
      else
        write_card_body dev false false page { v with bFailure := false }
          (nfc_initiator_select_passive_target dev s).2 := by
  have h2 : page ≠ 2 := by omega
  have h3 : page ≠ 3 := by omega
  have h1 : (nfc_initiator_select_passive_target dev s).1 = (dev s.log .select_passive_target).res := rfl
  simp only [write_card_body, h2, h3, hb, h1]
  by_cases h : (dev s.log .select_passive_target).res ≤ 0
  · simp [h]
  · simp [h]

theorem select_log (dev : Device) (s : State) :
    (nfc_initiator_select_passive_target dev s).2.log =
        s.log ++ [(.select_passive_target, dev s.log .select_passive_target)] ∧
    (nfc_initiator_select_passive_target dev s).2.mtDump = s.mtDump ∧
    (nfc_initiator_select_passive_target dev s).2.uiBlocks = s.uiBlocks := by
  simp only [nfc_initiator_select_passive_target, exec]
  split <;> simp

/-- The page loop of `write_card` from page 4 on returns when given
`uiBlocks - page + 1` units of fuel or more, leaves the staging memory alone,
and its exchanges, return value and counters follow `WriteRun`. -/
theorem write_card_loop_run (dev : Device) :
    ∀ (fuel page : Nat) (v : WriteVars) (s : State), 4 ≤ page → s.uiBlocks - page < fuel →
      v.uiWrittenPages < 2 ^ 32 → v.uiFailedPages < 2 ^ 32 →
      ∃ (ret : Bool) (v1 : WriteVars) (s1 : State) (ev : List Event) (a b : Nat),
        write_card_loop dev false false fuel page v s = some (ret, v1, s1) ∧
        s1.log = s.log ++ ev ∧ s1.mtDump = s.mtDump ∧ s1.uiBlocks = s.uiBlocks ∧
        WriteRun s.mtDump s.uiBlocks page v.bFailure ev ret a b ∧
        v1.uiWrittenPages = (v.uiWrittenPages + a) % 2 ^ 32 ∧
        v1.uiFailedPages = (v.uiFailedPages + b) % 2 ^ 32 ∧
        v1.uiSkippedPages = v.uiSkippedPages := by
  intro fuel
  induction fuel with
  | zero => intro page v s _ h; omega
  | succ fuel ih =>
    intro page v s hp hf hvw hvf
    by_cases hlt : page < s.uiBlocks
    · -- the part of the iteration after the reselection
      have core : ∀ (v : WriteVars) (s0 : State), v.bFailure = false →
          s0.uiBlocks = s.uiBlocks → s0.mtDump = s.mtDump →
          v.uiWrittenPages < 2 ^ 32 → v.uiFailedPages < 2 ^ 32 →
          ∃ (ret : Bool) (v1 : WriteVars) (s1 : State) (ev : List Event) (a b : Nat),
            (match write_card_body dev false false page v s0 with
              | .returned b v1 s1 => some (b, v1, s1)
              | .running v1 s1 => write_card_loop dev false false fuel (page + 1) v1 s1)
              = some (ret, v1, s1) ∧
            s1.log = s0.log ++ ev ∧ s1.mtDump = s.mtDump ∧ s1.uiBlocks = s.uiBlocks ∧
            WriteRun s.mtDump s.uiBlocks page false ev ret a b ∧
            v1.uiWrittenPages = (v.uiWrittenPages + a) % 2 ^ 32 ∧
            v1.uiFailedPages = (v.uiFailedPages + b) % 2 ^ 32 ∧
            v1.uiSkippedPages = v.uiSkippedPages := by
        intro v s0 hb hN hM hvw hvf
        rw [write_card_body_clear dev page v s0 hp hb]
        simp only
        obtain ⟨ret, v1, s1, ev, a, b, hrun, hlog, hmem, hblk, hwr, hw, hfl, hsk⟩ :=
          ih (page + 1)
            { v with
              bFailure := decide ((dev s0.log (writeCmd s0 v page)).res = 0)
              uiWrittenPages := (v.uiWrittenPages +
                (if (dev s0.log (writeCmd s0 v page)).res = 0 then 0 else 1)) % 2 ^ 32
              uiFailedPages := (v.uiFailedPages +
                (if (dev s0.log (writeCmd s0 v page)).res = 0 then 1 else 0)) % 2 ^ 32 }
            { s0 with
              mp := stagedMp s0 v page
              log := s0.log ++ [(writeCmd s0 v page, dev s0.log (writeCmd s0 v page))] }
            (by omega) (by simp only [hN]; omega) (by simp only; omega) (by simp only; omega)
        simp only [hM, hN] at hwr hmem hblk
        by_cases hres : (dev s0.log (writeCmd s0 v page)).res = 0
        · refine ⟨ret, v1, s1, (writeCmd s0 v page, dev s0.log (writeCmd s0 v page)) :: ev,
            a, b + 1, hrun, ?_, hmem, hblk, ?_, ?_, ?_, hsk⟩
          · simp [hlog]
          · refine WriteRun.failed page ((List.range 16).map (stagedMp s0 v page)) _ ev ret a b
              hlt ?_ hres ?_
            · rw [← hM]; exact stagedMp_take s0 v page
            · simpa [hres] using hwr
          · simp only [hres, if_true] at hw; omega
          · simp only [hres, if_true] at hfl; omega
        · refine ⟨ret, v1, s1, (writeCmd s0 v page, dev s0.log (writeCmd s0 v page)) :: ev,
            a + 1, b, hrun, ?_, hmem, hblk, ?_, ?_, ?_, hsk⟩
          · simp [hlog]
          · refine WriteRun.wrote page ((List.range 16).map (stagedMp s0 v page)) _ ev ret a b
              hlt ?_ hres ?_
            · rw [← hM]; exact stagedMp_take s0 v page
            · simpa [hres] using hwr
          · simp only [hres, if_false] at hw; omega
          · simp only [hres, if_false] at hfl; omega
      simp only [write_card_loop, hlt, if_true]
      cases hb : v.bFailure with
      | false => simpa [hb] using core v s hb rfl rfl hvw hvf
      | true =>
        obtain ⟨hslog, hsmem, hsblk⟩ := select_log dev s
        rw [write_card_body_flagged dev page v s hp hb]
        by_cases hsel : (dev s.log .select_passive_target).res ≤ 0
        · simp only [hsel, if_true]
          exact ⟨false, v, _, _, 0, 0, rfl, hslog, hsmem, hsblk,
            WriteRun.lost page _ hlt hsel, by simp; omega, by simp; omega, rfl⟩
        · simp only [hsel, if_false]
          obtain ⟨ret, v1, s1, ev, a, b, hrun, hlog, hmem, hblk, hwr, hw, hfl, hsk⟩ :=
            core { v with bFailure := false } (nfc_initiator_select_passive_target dev s).2
              rfl hsblk hsmem hvw hvf
          refine ⟨ret, v1, s1,
            (.select_passive_target, dev s.log .select_passive_target) :: ev, a, b, hrun, ?_,
            hmem, hblk, ?_, hw, hfl, hsk⟩
          · simp [hlog, hslog]
          · exact WriteRun.reselected page _ ev ret a b hlt (by omega) hwr
    · simp only [write_card_loop, hlt, if_false]
      exact ⟨true, v, s, [], 0, 0, rfl, by simp, rfl, rfl,
        WriteRun.done page _ (by omega), by simp; omega, by simp; omega, rfl⟩

/-- Every run of `write_card` returns.  Its exchanges, return value and
counters follow `WriteRun` from page 4 with the failure flag clear, whatever
the three intent flags are; the staging memory and the page count are left
alone, and the skip counter ends at 2, 3 or 4 according to the page count. -/
theorem write_card_run (dev : Device) (crc : List Nat → Nat × Nat)
    (write_otp write_lock write_uid : Bool) (s : State) :
    ∃ (ret : Bool) (v1 : WriteVars) (s1 : State) (ev : List Event) (a b : Nat),
      write_card dev crc write_otp write_lock write_uid s = some (ret, v1, s1) ∧
      s1.log = s.log ++ ev ∧ s1.mtDump = s.mtDump ∧ s1.uiBlocks = s.uiBlocks ∧
      WriteRun s.mtDump s.uiBlocks 4 false ev ret a b ∧
      v1.uiWrittenPages = a % 2 ^ 32 ∧ v1.uiFailedPages = b % 2 ^ 32 ∧
      v1.uiSkippedPages = min (max s.uiBlocks 2) 4 := by
  simp only [write_card, Bool.not_false, if_true]
  by_cases h2 : s.uiBlocks ≤ 2
  · refine ⟨true, ⟨false, 0, 2, 0⟩, s, [], 0, 0, ?_, by simp, rfl, rfl,
      WriteRun.done 4 _ (by omega), rfl, rfl, ?_⟩
    · simp only [write_card_loop]
      rw [if_neg (by omega)]
    · simp only
      omega
  · by_cases h3 : s.uiBlocks = 3
    · refine ⟨true, ⟨false, 0, 3, 0⟩, s, [], 0, 0, ?_, by simp, rfl, rfl,
        WriteRun.done 4 _ (by omega), rfl, rfl, ?_⟩
      · simp [h3, write_card_loop, write_card_body]
      · simp only
        omega
    · obtain ⟨m, hm⟩ : ∃ m, s.uiBlocks + 1 = m + 2 := ⟨s.uiBlocks - 1, by omega⟩
      obtain ⟨ret, v1, s1, ev, a, b, hrun, hlog, hmem, hblk, hwr, hw, hfl, hsk⟩ :=
        write_card_loop_run dev m 4 ⟨false, 0, 4, 0⟩ s (le_refl 4) (by omega) (by norm_num) (by norm_num)
      refine ⟨ret, v1, s1, ev, a, b, ?_, hlog, hmem, hblk, hwr, ?_, ?_, ?_⟩
      · rw [hm]
        simp only [write_card_loop, write_card_body]
        rw [if_pos (by omega), if_pos (by simp)]
        simp only
        rw [if_pos (by omega), if_neg (by simp), if_pos (by simp)]
        simpa using hrun
      · simpa using hw
      · simpa using hfl
      · rw [hsk]
        simp only
        omega

/-! ### Consequences of the trace shape -/

theorem isSelect_select (rep : Reply) : isSelect (.select_passive_target, rep) = true := rfl

theorem isWrite_select (rep : Reply) : isWrite (.select_passive_target, rep) = false := rfl

theorem writeTarget_select (rep : Reply) : writeTarget (.select_passive_target, rep) = none := rfl

theorem isSelect_write (page : Nat) (data : List Nat) (rep : Reply) :
    isSelect (.mifare_cmd .MC_WRITE page data, rep) = false := rfl

theorem isWrite_write (page : Nat) (data : List Nat) (rep : Reply) :
    isWrite (.mifare_cmd .MC_WRITE page data, rep) = true := rfl

theorem writeTarget_write (page : Nat) (data : List Nat) (rep : Reply) :
    writeTarget (.mifare_cmd .MC_WRITE page data, rep) = some page := rfl

/-- The first exchange of a run from `page`: the page is below the page
count, the exchange is a reselection exactly when the failure flag is set,
and otherwise it is the write of `page`. -/
theorem WriteRun.head {mem : Nat → Nat → Nat} {N page : Nat} {bF : Bool} {ev : List Event}
    {ret : Bool} {a b : Nat} (h : WriteRun mem N page bF ev ret a b) :
    ∀ e ∈ ev.head?, page < N ∧ isSelect e = bF ∧ (bF = false → writeTarget e = some page) := by
  induction h with
  | done => simp
  | lost page rep hlt hres => simp [isSelect_select, hlt]
  | reselected page rep ev ret a b hlt hres hrest ih => simp [isSelect_select, hlt]
  | wrote page data rep ev ret a b hlt htake hres hrest ih =>
    simp [isSelect_write, writeTarget_write, hlt]
  | failed page data rep ev ret a b hlt htake hres hrest ih =>
    simp [isSelect_write, writeTarget_write, hlt]

/-- A run returns false exactly when one of its exchanges is a failed
reselection. -/
theorem WriteRun.ret_false_iff {mem : Nat → Nat → Nat} {N page : Nat} {bF : Bool}
    {ev : List Event} {ret : Bool} {a b : Nat} (h : WriteRun mem N page bF ev ret a b) :
    ret = false ↔ ∃ e ∈ ev, isFailedSelect e = true := by
  induction h with
  | done => simp
  | lost page rep hlt hres => simp [isFailedSelect, isSelect_select, hres]
  | reselected page rep ev ret a b hlt hres hrest ih =>
    rw [ih]
    have : ¬ rep.res ≤ 0 := by omega
    simp [isFailedSelect, isSelect_select, this]
  | wrote page data rep ev ret a b hlt htake hres hrest ih =>
    rw [ih]
    simp [isFailedSelect, isSelect_write]
  | failed page data rep ev ret a b hlt htake hres hrest ih =>
    rw [ih]
    simp [isFailedSelect, isSelect_write]

theorem WriteRun.chain {mem : Nat → Nat → Nat} {N page : Nat} {bF : Bool} {ev : List Event}
    {ret : Bool} {a b : Nat} (h : WriteRun mem N page bF ev ret a b) :
    List.Chain' (WriteAdjacent N) ev := by
  induction h with
  | done => simp
  | lost page rep hlt hres => simp
  | reselected page rep ev ret a b hlt hres hrest ih =>
    rw [List.chain'_cons']
    refine ⟨?_, ih⟩
    intro e2 he2
    obtain ⟨_, hsel, _⟩ := hrest.head e2 he2
    have : ¬ rep.res ≤ 0 := by omega
    simp [WriteAdjacent, isFailedSelect, isSelect_select, writeTarget_select, isFailedWrite,
      isWrite_select, this, hsel]
  | wrote page data rep ev ret a b hlt htake hres hrest ih =>
    rw [List.chain'_cons']
    refine ⟨?_, ih⟩
    intro e2 he2
    obtain ⟨hlt2, hsel, _⟩ := hrest.head e2 he2
    have hne : page ≠ N - 1 := by omega
    simp [WriteAdjacent, isFailedSelect, isSelect_write, writeTarget_write, isFailedWrite,
      isWrite_write, hres, hsel, hne]
  | failed page data rep ev ret a b hlt htake hres hrest ih =>
    rw [List.chain'_cons']
    refine ⟨?_, ih⟩
    intro e2 he2
    obtain ⟨hlt2, hsel, _⟩ := hrest.head e2 he2
    have hne : page ≠ N - 1 := by omega
    simp [WriteAdjacent, isFailedSelect, isSelect_write, writeTarget_write, isFailedWrite,
      isWrite_write, hres, hsel, hne]

/-- Every exchange of a run is a reselection or the write of a page from
`page` up to the page count, carrying that page of the staging memory as its
first four bytes. -/
theorem WriteRun.events {mem : Nat → Nat → Nat} {N page : Nat} {bF : Bool} {ev : List Event}
    {ret : Bool} {a b : Nat} (h : WriteRun mem N page bF ev ret a b) :
    ∀ e ∈ ev, e.1 = .select_passive_target ∨
      ∃ (p : Nat) (data : List Nat), page ≤ p ∧ p < N ∧
        e.1 = .mifare_cmd .MC_WRITE p data ∧ data.take 4 = pageBytes mem p := by
  induction h with
  | done => simp
  | lost page rep hlt hres => simp
  | reselected page rep ev ret a b hlt hres hrest ih =>
    intro e he
    rcases List.mem_cons.mp he with rfl | he
    · exact Or.inl rfl
    · exact ih e he
  | wrote page data rep ev ret a b hlt htake hres hrest ih =>
    intro e he
    rcases List.mem_cons.mp he with rfl | he
    · exact Or.inr ⟨page, data, le_refl _, hlt, rfl, htake⟩
    · rcases ih e he with h | ⟨p, d, h1, h2, h3, h4⟩
      · exact Or.inl h
      · exact Or.inr ⟨p, d, by omega, h2, h3, h4⟩
  | failed page data rep ev ret a b hlt htake hres hrest ih =>
    intro e he
    rcases List.mem_cons.mp he with rfl | he
    · exact Or.inr ⟨page, data, le_refl _, hlt, rfl, htake⟩
    · rcases ih e he with h | ⟨p, d, h1, h2, h3, h4⟩
      · exact Or.inl h
      · exact Or.inr ⟨p, d, by omega, h2, h3, h4⟩

/-- The pages written in a run are `page, page + 1, ...` without gap or
repetition, up to the last page when the run returns true. -/
theorem WriteRun.targets {mem : Nat → Nat → Nat} {N page : Nat} {bF : Bool} {ev : List Event}
    {ret : Bool} {a b : Nat} (h : WriteRun mem N page bF ev ret a b) :
    ∃ k, k ≤ N - page ∧ ev.filterMap writeTarget = List.range' page k ∧
      (ret = true → k = N - page) := by
  induction h with
  | done page bF hle => exact ⟨0, by omega, rfl, fun _ => by omega⟩
  | lost page rep hlt hres => exact ⟨0, by omega, rfl, fun h => by simp at h⟩
  | reselected page rep ev ret a b hlt hres hrest ih =>
    obtain ⟨k, hk, hev, hret⟩ := ih
    exact ⟨k, hk, by simpa [List.filterMap_cons, writeTarget_select] using hev, hret⟩
  | wrote page data rep ev ret a b hlt htake hres hrest ih =>
    obtain ⟨k, hk, hev, hret⟩ := ih
    refine ⟨k + 1, by omega, ?_, fun h => by have := hret h; omega⟩
    simp [List.filterMap_cons, writeTarget_write, hev, List.range'_succ]
  | failed page data rep ev ret a b hlt htake hres hrest ih =>
    obtain ⟨k, hk, hev, hret⟩ := ih
    refine ⟨k + 1, by omega, ?_, fun h => by have := hret h; omega⟩
    simp [List.filterMap_cons, writeTarget_write, hev, List.range'_succ]

/-- C5: for every value of the three intent flags and every device,
`write_card` returns; each of its exchanges is either a reselection or the
write of a page `p` with `4 <= p < uiBlocks` whose first 4 bytes are page `p`
of the staging memory as handed to `write_card` (so there is no write of page
0, 1, 2 or 3, and no exchange of the magic-card probe, which starts with a
write of page 0); the pages written are
`4, 5, ..., 4 + k - 1` in this order, each once, and all of `4 .. uiBlocks - 1`
when the loop runs to completion; the skip counter ends at 4 when the tag has
4 pages or more. -/
theorem write_card_never_writes_low_pages (dev : Device) (crc : List Nat → Nat × Nat)
    (write_otp write_lock write_uid : Bool) (s : State) :
    ∃ (ret : Bool) (v1 : WriteVars) (s1 : State) (ev : List Event),
      write_card dev crc write_otp write_lock write_uid s = some (ret, v1, s1) ∧
      s1.log = s.log ++ ev ∧
      (∀ e ∈ ev, e.1 = .select_passive_target ∨
        ∃ (p : Nat) (data : List Nat), 4 ≤ p ∧ p < s.uiBlocks ∧
          e.1 = .mifare_cmd .MC_WRITE p data ∧ data.take 4 = pageBytes s.mtDump p) ∧
      (∃ k, k ≤ s.uiBlocks - 4 ∧ ev.filterMap writeTarget = List.range' 4 k ∧
        (ret = true → k = s.uiBlocks - 4)) ∧
      (4 ≤ s.uiBlocks → v1.uiSkippedPages = 4) := by
  obtain ⟨ret, v1, s1, ev, a, b, hrun, hlog, -, -, hwr, -, -, hsk⟩ :=
    write_card_run dev crc write_otp write_lock write_uid s
  exact ⟨ret, v1, s1, ev, hrun, hlog, hwr.events, hwr.targets,
    fun h => by rw [hsk]; omega⟩

theorem stepOf_select (rep : Reply) : stepOf (.select_passive_target, rep) = .reselect := rfl

theorem stepOf_write (page : Nat) (data : List Nat) (rep : Reply) :
    stepOf (.mifare_cmd .MC_WRITE page data, rep) = .write page := rfl

/-- A run that starts after the failing page `k` with the flag clear: every
page up to the last is written, nothing fails. -/
theorem WriteRun.after_failing_page {mem : Nat → Nat → Nat} {N page : Nat} {bF : Bool}
    {ev : List Event} {ret : Bool} {a b : Nat} (h : WriteRun mem N page bF ev ret a b)
    (k : Nat) (hb : bF = false) (hk : k < page) (h1 : OnlyPageFails k ev) :
    ret = true ∧ a = N - page ∧ b = 0 ∧
      ev.map stepOf = (List.range' page (N - page)).map Step.write := by
  induction h with
  | done page bF hle =>
    have : N - page = 0 := by omega
    simp [this]
  | lost page rep hlt hres => simp at hb
  | reselected page rep ev ret a b hlt hres hrest ih => simp at hb
  | wrote page data rep ev ret a b hlt htake hres hrest ih =>
    have h1r : OnlyPageFails k ev := fun e he => h1 e (List.mem_cons_of_mem _ he)
    obtain ⟨hret, ha, hb2, hev⟩ := ih rfl (by omega) h1r
    have hN : N - page = (N - (page + 1)) + 1 := by omega
    refine ⟨hret, by omega, hb2, ?_⟩
    rw [hN, List.range'_succ]
    simp [stepOf_write, hev]
  | failed page data rep ev ret a b hlt htake hres hrest ih =>
    exfalso
    have := (h1 _ (List.mem_cons_self _ _) (isWrite_write page data rep)).mp
      (by simp [isFailedWrite, isWrite_write, hres])
    rw [writeTarget_write] at this
    injection this with this
    omega

/-- A run that starts at or before the failing page `k` (not the last page)
with the flag clear, in which only page `k` fails and every reselection
succeeds. -/
theorem WriteRun.up_to_failing_page {mem : Nat → Nat → Nat} {N page : Nat} {bF : Bool}
    {ev : List Event} {ret : Bool} {a b : Nat} (h : WriteRun mem N page bF ev ret a b)
    (k : Nat) (hb : bF = false) (hk : page ≤ k) (hkN : k + 1 < N)
    (h1 : OnlyPageFails k ev) (h2 : SelectsSucceed ev) :
    ret = true ∧ a = N - page - 1 ∧ b = 1 ∧
      ev.map stepOf = (List.range' page (k + 1 - page)).map Step.write ++ [Step.reselect] ++
        (List.range' (k + 1) (N - (k + 1))).map Step.write := by
  induction h with
  | done page bF hle => omega
  | lost page rep hlt hres => simp at hb
  | reselected page rep ev ret a b hlt hres hrest ih => simp at hb
  | wrote page data rep ev ret a b hlt htake hres hrest ih =>
    have h1r : OnlyPageFails k ev := fun e he => h1 e (List.mem_cons_of_mem _ he)
    have h2r : SelectsSucceed ev := fun e he => h2 e (List.mem_cons_of_mem _ he)
    have hne : page ≠ k := by
      intro hpk
      have := (h1 _ (List.mem_cons_self _ _) (isWrite_write page data rep)).mpr
        (by rw [writeTarget_write, hpk])
      simp [isFailedWrite, isWrite_write, hres] at this
    obtain ⟨hret, ha, hb2, hev⟩ := ih rfl (by omega) h1r h2r
    have hN : k + 1 - page = (k + 1 - (page + 1)) + 1 := by omega
    refine ⟨hret, by omega, hb2, ?_⟩
    rw [hN, List.range'_succ]
    simp [stepOf_write, hev]
  | failed page data rep ev ret a b hlt htake hres hrest ih =>
    have h1r : OnlyPageFails k ev := fun e he => h1 e (List.mem_cons_of_mem _ he)
    have h2r : SelectsSucceed ev := fun e he => h2 e (List.mem_cons_of_mem _ he)
    have hpk : page = k := by
      have := (h1 _ (List.mem_cons_self _ _) (isWrite_write page data rep)).mp
        (by simp [isFailedWrite, isWrite_write, hres])
      rw [writeTarget_write] at this
      injection this
    subst hpk
    cases hrest with
    | done _ _ hle => omega
    | lost _ rep2 hlt2 hres2 =>
      exfalso
      have := h2r _ (List.mem_cons_self _ _) (isSelect_select rep2)
      simp [isFailedSelect, isSelect_select, hres2] at this
    | reselected _ rep2 ev2 _ _ _ hlt2 hres2 hrest2 =>
      have h1rr : OnlyPageFails page ev2 := fun e he => h1r e (List.mem_cons_of_mem _ he)
      obtain ⟨hret, ha, hb2, hev⟩ := hrest2.after_failing_page page rfl (by omega) h1rr
      refine ⟨hret, by omega, by omega, ?_⟩
      have h1 : page + 1 - page = 1 := by omega
      simp [stepOf_write, stepOf_select, hev, h1]

/-- C4: let the tag have `uiBlocks < 2^32` pages and let `k` be a page with
`4 <= k < uiBlocks - 1`.  `write_card` returns, and if in its run the write
of page `k` is the only page write that fails and every reselection succeeds,
then it returns true, the failure counter ends at 1, the written counter ends
at `uiBlocks - 4 - 1`, and the exchanges are, in order: the writes of pages
`4 .. k`, one reselection, the writes of pages `k + 1 .. uiBlocks - 1`. -/
theorem write_card_page_local_failure (dev : Device) (crc : List Nat → Nat × Nat)
    (write_otp write_lock write_uid : Bool) (s : State) (k : Nat)
    (hk4 : 4 ≤ k) (hkN : k + 1 < s.uiBlocks) (hN : s.uiBlocks < 2 ^ 32) :
    ∃ (ret : Bool) (v1 : WriteVars) (s1 : State) (ev : List Event),
      write_card dev crc write_otp write_lock write_uid s = some (ret, v1, s1) ∧
      s1.log = s.log ++ ev ∧
      (OnlyPageFails k ev → SelectsSucceed ev →
        ret = true ∧ v1.uiFailedPages = 1 ∧ v1.uiWrittenPages = s.uiBlocks - 4 - 1 ∧
        ev.map stepOf = (List.range' 4 (k + 1 - 4)).map Step.write ++ [Step.reselect] ++
          (List.range' (k + 1) (s.uiBlocks - (k + 1))).map Step.write) := by
  obtain ⟨ret, v1, s1, ev, a, b, hrun, hlog, -, -, hwr, hw, hf, -⟩ :=
    write_card_run dev crc write_otp write_lock write_uid s
  refine ⟨ret, v1, s1, ev, hrun, hlog, fun h1 h2 => ?_⟩
  obtain ⟨hret, ha, hb, hev⟩ := hwr.up_to_failing_page k rfl hk4 hkN h1 h2
  refine ⟨hret, ?_, ?_, hev⟩
  · rw [hf, hb]; rfl
  · rw [hw, ha]
    apply Nat.mod_eq_of_lt
    omega

/-- C4 witness: 32 pages, page 10 fails.  The run of `write_card` on
`devPage10` satisfies both premises, and the conclusions hold: result true,
one failed page, 27 written pages, one reselection between the writes of
pages 10 and 11, and pages 11 to 31 still written. -/
theorem write_card_page_local_failure_witness :
    ∃ (ret : Bool) (v1 : WriteVars) (s1 : State) (ev : List Event),
      write_card devPage10 (fun _ => (0, 0)) false false false initState = some (ret, v1, s1) ∧
      s1.log = initState.log ++ ev ∧ OnlyPageFails 10 ev ∧ SelectsSucceed ev ∧
      ret = true ∧ v1.uiFailedPages = 1 ∧ v1.uiWrittenPages = 27 ∧
      ev.map stepOf = (List.range' 4 7).map Step.write ++ [Step.reselect] ++
        (List.range' 11 21).map Step.write := by
  obtain ⟨ret, v1, s1, ev, hrun, hlog, himp⟩ :=
    write_card_page_local_failure devPage10 (fun _ => (0, 0)) false false false initState 10
      (by decide) (by decide) (by decide)
  have hd : (write_card devPage10 (fun _ => (0, 0)) false false false initState).all
      (fun r => decide (OnlyPageFails 10 r.2.2.log) && decide (SelectsSucceed r.2.2.log))
        = true := by
    decide
  rw [hrun] at hd
  have hev : s1.log = ev := by simpa [initState] using hlog
  simp only [Option.all, hev, Bool.and_eq_true, decide_eq_true_eq] at hd
  exact ⟨ret, v1, s1, ev, hrun, hlog, hd.1, hd.2, himp hd.1 hd.2⟩

/-- C8: for every device and every value of the intent flags `write_card`
returns, and it returns false exactly when one of its exchanges is a failed
reselection.  The first exchange is never a reselection; a reselection is
made exactly after a failed page write that is followed by anything at all;
nothing follows a failed reselection (so no page write is issued after it)
and nothing follows the write of the last page (so its failure triggers no
reselection).  In every other run, whatever page writes failed, the result
is true. -/
theorem write_card_outcome (dev : Device) (crc : List Nat → Nat × Nat)
    (write_otp write_lock write_uid : Bool) (s : State) :
    ∃ (ret : Bool) (v1 : WriteVars) (s1 : State) (ev : List Event),
      write_card dev crc write_otp write_lock write_uid s = some (ret, v1, s1) ∧
      s1.log = s.log ++ ev ∧
      (ret = false ↔ ∃ e ∈ ev, isFailedSelect e = true) ∧
      (∀ e ∈ ev.head?, isSelect e = false) ∧
      List.Chain' (WriteAdjacent s.uiBlocks) ev := by
  obtain ⟨ret, v1, s1, ev, a, b, hrun, hlog, -, -, hwr, -, -, -⟩ :=
    write_card_run dev crc write_otp write_lock write_uid s
  exact ⟨ret, v1, s1, ev, hrun, hlog, hwr.ret_false_iff,
    fun e he => (hwr.head e he).2.1, hwr.chain⟩

/-! ## Theorems: read path -/

/-- Number of bytes that line 55 copies for the block that starts at page
`4 * b` of an `N`-page tag: `min(4, N - 4 b) * 4`. -/
theorem copy_len_eq (N b : Nat) :
    (if N - 4 * b < 4 then (N - 4 * b) * 4 else 16) = min 4 (N - 4 * b) * 4 := by
  split <;> omega

/-- Effect of one iteration of the block loop of `read_card` on the log, the
staging memory and the fields the loop depends on. -/
theorem read_card_body_effect (dev : Device) (q : Nat) (v : ReadVars) (s : State) :
    (read_card_body dev (4 * q) v s).2.log =
        s.log ++ [(.mifare_cmd .MC_READ (4 * q) [], dev s.log (.mifare_cmd .MC_READ (4 * q) []))] ∧
    (read_card_body dev (4 * q) v s).2.uiBlocks = s.uiBlocks ∧
    (read_card_body dev (4 * q) v s).2.iEV1Type = s.iEV1Type ∧
    (∀ b j, (read_card_body dev (4 * q) v s).2.mtDump b j =
      if b = q ∧ (dev s.log (.mifare_cmd .MC_READ (4 * q) [])).res ≠ 0 ∧
          j < min 4 (s.uiBlocks - 4 * q) * 4
        then (dev s.log (.mifare_cmd .MC_READ (4 * q) [])).data.getD j 0
        else s.mtDump b j) := by
  have hq : 4 * q / 4 = q := by omega
  by_cases hres : (dev s.log (.mifare_cmd .MC_READ (4 * q) [])).res = 0
  · simp [read_card_body, nfc_initiator_mifare_cmd, exec, hres]
  · refine ⟨?_, ?_, ?_, ?_⟩
    · simp [read_card_body, nfc_initiator_mifare_cmd, exec, hres]
    · simp [read_card_body, nfc_initiator_mifare_cmd, exec, hres]
    · simp [read_card_body, nfc_initiator_mifare_cmd, exec, hres]
    · intro b j
      simp only [read_card_body, nfc_initiator_mifare_cmd, exec, hres, ne_eq, not_false_eq_true,
        if_true, memcpyBlock, hq, copy_len_eq, true_and, Nat.zero_le, Nat.zero_add, Nat.sub_zero]
      by_cases hb : b = q
      · by_cases hj : j < min 4 (s.uiBlocks - 4 * q) * 4
        · have : j < 16 := by omega
          simp [hb, hj, this]
        · simp [hb, hj]
      · simp [hb]

/-- The block loop of `read_card` from block `q` on: with enough fuel and a
page count that the stride of 4 cannot carry past `2^32` it returns, it issues
one read per remaining block start whatever the earlier results were, and a
byte of the staging memory changes only where a successful read copies it. -/
theorem read_card_loop_run (dev : Device) :
    ∀ (fuel q : Nat) (v : ReadVars) (s : State), s.uiBlocks + 4 ≤ 2 ^ 32 →
      (s.uiBlocks + 3) / 4 - q < fuel →
      ∃ (v1 : ReadVars) (s1 : State) (ev : List Event),
        read_card_loop dev fuel (4 * q) v s = some (v1, s1) ∧
        s1.log = s.log ++ ev ∧ s1.uiBlocks = s.uiBlocks ∧ s1.iEV1Type = s.iEV1Type ∧
        ev.map Prod.fst = (List.range' q ((s.uiBlocks + 3) / 4 - q)).map
          (fun b => Cmd.mifare_cmd .MC_READ (4 * b) []) ∧
        ∀ b j, s1.mtDump b j =
          if q ≤ b then
            match ev[b - q]? with
            | some e =>
              if e.2.res ≠ 0 ∧ j < min 4 (s.uiBlocks - 4 * b) * 4 then e.2.data.getD j 0
              else s.mtDump b j
            | none => s.mtDump b j
          else s.mtDump b j := by
  intro fuel
  induction fuel with
  | zero => intro q v s _ h; omega
  | succ fuel ih =>
    intro q v s hN hf
    by_cases hlt : 4 * q < s.uiBlocks
    · obtain ⟨hlog, hblk, hev1, hmem⟩ := read_card_body_effect dev q v s
      have hwrap : (4 * q + 4) % 2 ^ 32 = 4 * (q + 1) := by omega
      obtain ⟨v1, s1, ev, hrun, hlog1, hblk1, hev11, hcmds, hmem1⟩ :=
        ih (q + 1) (read_card_body dev (4 * q) v s).1 (read_card_body dev (4 * q) v s).2
          (by rw [hblk]; exact hN) (by rw [hblk]; omega)
      refine ⟨v1, s1,
        (.mifare_cmd .MC_READ (4 * q) [], dev s.log (.mifare_cmd .MC_READ (4 * q) [])) :: ev,
        ?_, ?_, ?_, ?_, ?_, ?_⟩
      · simp only [read_card_loop, hlt, if_true, hwrap]
        exact hrun
      · rw [hlog1, hlog]
        simp
      · rw [hblk1, hblk]
      · rw [hev11, hev1]
      · have hcnt : (s.uiBlocks + 3) / 4 - q = ((s.uiBlocks + 3) / 4 - (q + 1)) + 1 := by omega
        rw [hcnt, List.range'_succ]
        rw [hblk] at hcmds
        simp [hcmds]
      · intro b j
        rw [hmem1 b j]
        rw [hblk]
        by_cases hb : q + 1 ≤ b
        · have hb0 : q ≤ b := by omega
          have hidx : b - q = (b - (q + 1)) + 1 := by omega
          have hne : ¬ b = q := by omega
          rw [if_pos hb, if_pos hb0, hidx, List.getElem?_cons_succ]
          rw [hmem b j]
          simp [hne]
        · rw [if_neg hb, hmem b j]
          by_cases hbq : b = q
          · subst hbq
            simp
          · have : ¬ q ≤ b := by omega
            simp [hbq, this]
    · have hcnt : (s.uiBlocks + 3) / 4 - q = 0 := by omega
      refine ⟨v, s, [], ?_, by simp, rfl, rfl, by simp [hcnt], ?_⟩
      · simp only [read_card_loop, hlt, if_false]
      · intro b j
        simp

/-- C7: for every page count `uiBlocks` (with `uiBlocks + 4 <= 2^32`, so that
the `uint32_t` page index cannot wrap), every device and no EV1 variant set,
`read_card` returns; it issues exactly one block read per block start
`0, 4, 8, ... < uiBlocks`, in this order and whatever the earlier results
were; afterwards byte `j` of block `b` of the staging memory is byte `j` of
the response to the read of page `4 b` if that read succeeded and
`j < min(4, uiBlocks - 4 b) * 4`, and is unchanged in every other case (failed
read, byte past the copied length, block past the page count). -/
theorem read_card_memory (dev : Device) (h : NfcH) (s : State)
    (hN : s.uiBlocks + 4 ≤ 2 ^ 32) (hev1 : s.iEV1Type = .EV1_NONE) :
    ∃ (ret : Bool) (v1 : ReadVars) (s1 : State) (ev : List Event),
      read_card dev h s = some (ret, v1, s1) ∧ s1.log = s.log ++ ev ∧
      ev.map Prod.fst = (List.range ((s.uiBlocks + 3) / 4)).map
        (fun b => Cmd.mifare_cmd .MC_READ (4 * b) []) ∧
      ∀ b j, s1.mtDump b j =
        match ev[b]? with
        | some e =>
          if e.2.res ≠ 0 ∧ j < min 4 (s.uiBlocks - 4 * b) * 4 then e.2.data.getD j 0
          else s.mtDump b j
        | none => s.mtDump b j := by
  obtain ⟨v1, s1, ev, hrun, hlog, hblk, hty, hcmds, hmem⟩ :=
    read_card_loop_run dev (s.uiBlocks + 1) 0 ⟨false, 0⟩ s hN (by omega)
  refine ⟨!v1.bFailure, v1, s1, ev, ?_, hlog, ?_, ?_⟩
  · simp only [read_card]
    rw [show (0 : Nat) = 4 * 0 from rfl, hrun]
    simp only [hty, hev1]
  · rw [hcmds, List.range_eq_range']
    simp
  · intro b j
    rw [hmem b j]
    simp

/-! ## Theorems: game record codec -/

theorem zero_bytes_fold (m : Nat → Nat → Nat) (i : Nat) :
    ∀ n, (List.range n).foldl (fun m j => setByte m i j 0) m =
      fun b k => if b = i ∧ k < n then 0 else m b k := by
  intro n
  induction n with
  | zero => simp
  | succ n ih =>
    rw [List.range_succ, List.foldl_append, ih]
    funext b k
    simp only [List.foldl_cons, List.foldl_nil, setByte]
    by_cases hb : b = i
    · by_cases hk : k = n
      · simp [hb, hk]
      · by_cases hk2 : k < n
        · have : k < n + 1 := by omega
          simp [hb, hk, hk2, this]
        · have : ¬ k < n + 1 := by omega
          simp [hb, hk, hk2, this]
    · simp [hb]

theorem zero_blocks_fold :
    ∀ (k start : Nat) (m : Nat → Nat → Nat),
      (List.range' start k).foldl
        (fun m i => (List.range 16).foldl (fun m j => setByte m i j 0) m) m =
      fun b j => if start ≤ b ∧ b < start + k ∧ j < 16 then 0 else m b j := by
  intro k
  induction k with
  | zero =>
    intro start m
    funext b j
    have : ¬ (start ≤ b ∧ b < start ∧ j < 16) := by omega
    simp [this]
  | succ k ih =>
    intro start m
    rw [List.range'_succ, List.foldl_cons, ih, zero_bytes_fold]
    funext b j
    by_cases hb : b = start
    · by_cases hj : j < 16
      · simp [hb, hj]
      · simp [hb, hj]
    · by_cases h1 : start + 1 ≤ b ∧ b < start + 1 + k ∧ j < 16
      · have h2 : start ≤ b ∧ b < start + (k + 1) ∧ j < 16 := ⟨by omega, by omega, h1.2.2⟩
        simp [h1, h2]
      · have h2 : ¬ (start ≤ b ∧ b < start + (k + 1) ∧ j < 16) := by
          intro h2
          exact h1 ⟨by omega, by omega, h2.2.2⟩
        simp [h1, h2, hb]

/-- Lines 584-588 clear exactly the bytes `0 .. 15` of blocks
`1 .. uiBlocks - 1`. -/
theorem zeroBlocks_apply (N : Nat) (m : Nat → Nat → Nat) (b j : Nat) :
    zeroBlocks N m b j = if 1 ≤ b ∧ b < N ∧ j < 16 then 0 else m b j := by
  simp only [zeroBlocks, zero_blocks_fold]
  by_cases h : 1 ≤ b ∧ b < N ∧ j < 16
  · have h2 : 1 ≤ b ∧ b < 1 + (N - 1) ∧ j < 16 := ⟨h.1, by omega, h.2.2⟩
    simp [h, h2]
  · have h2 : ¬ (1 ≤ b ∧ b < 1 + (N - 1) ∧ j < 16) := by
      intro h2
      exact h ⟨h2.1, by omega, h2.2.2⟩
    simp [h, h2]

/-- The inner filename loop stores the first `min n |temp|` bytes of `temp` at
bytes `j, j + 1, ...` of block `blk` and drops them from `temp`. -/
theorem encodeName_inner_eq (blk : Nat) :
    ∀ (n j : Nat) (m : Nat → Nat → Nat) (temp : List Nat),
      encodeName_inner blk n j (m, temp) =
        (fun b k => if b = blk ∧ j ≤ k ∧ k < j + min n temp.length
            then temp.getD (k - j) 0 else m b k,
         temp.drop n) := by
  intro n
  induction n with
  | zero =>
    intro j m temp
    simp only [encodeName_inner, List.drop_zero, Nat.zero_min, Nat.add_zero]
    congr 1
    funext b k
    have : ¬ (b = blk ∧ j ≤ k ∧ k < j) := by omega
    simp [this]
  | succ n ih =>
    intro j m temp
    cases temp with
    | nil =>
      simp only [encodeName_inner, List.drop_nil, List.length_nil, Nat.min_zero, Nat.add_zero]
      congr 1
      funext b k
      have : ¬ (b = blk ∧ j ≤ k ∧ k < j) := by omega
      simp [this]
    | cons c rest =>
      simp only [encodeName_inner, ih, List.drop_succ_cons, List.length_cons]
      congr 1
      funext b k
      simp only [setByte]
      by_cases hb : b = blk
      · by_cases hk : k = j
        · have h1 : ¬ (j + 1 ≤ k) := by omega
          have h2 : k < j + min (n + 1) (rest.length + 1) := by omega
          simp [hb, hk]
        · by_cases hk2 : j + 1 ≤ k ∧ k < j + 1 + min n rest.length
          · have h3 : j ≤ k ∧ k < j + min (n + 1) (rest.length + 1) := by omega
            have h4 : k - j = (k - (j + 1)) + 1 := by omega
            simp only [hb, hk2, h3, true_and, and_self, if_true]
            rw [h4, List.getD_cons_succ]
          · have h3 : ¬ (j ≤ k ∧ k < j + min (n + 1) (rest.length + 1)) := by omega
            simp [hb, hk, hk2, h3]
      · simp [hb]

theorem getD_drop (l : List Nat) (n x : Nat) : (l.drop n).getD x 0 = l.getD (n + x) 0 := by
  simp [List.getD_eq_getElem?_getD, List.getElem?_drop]

/-- The outer filename loop stores byte `16 (b - (i + 3)) + k` of `temp` at
byte `k` of block `b`, for the `n` blocks from `i + 3` on, as far as `temp`
reaches. -/
theorem encodeName_outer_eq :
    ∀ (n i : Nat) (m : Nat → Nat → Nat) (temp : List Nat),
      encodeName_outer n i (m, temp) =
        (fun b k => if i + 3 ≤ b ∧ b < i + 3 + n ∧ k < 16 ∧
              16 * (b - (i + 3)) + k < temp.length
            then temp.getD (16 * (b - (i + 3)) + k) 0 else m b k,
         temp.drop (16 * n)) := by
  intro n
  induction n with
  | zero =>
    intro i m temp
    simp only [encodeName_outer, Nat.mul_zero, List.drop_zero]
    congr 1
    funext b k
    have : ¬ (i + 3 ≤ b ∧ b < i + 3 + 0 ∧ k < 16 ∧ 16 * (b - (i + 3)) + k < temp.length) := by
      omega
    simp [this]
  | succ n ih =>
    intro i m temp
    simp only [encodeName_outer, encodeName_inner_eq, ih, List.drop_drop, List.length_drop]
    congr 1
    · funext b k
      by_cases hb : b = i + 3
      · subst hb
        have h1 : ¬ (i + 1 + 3 ≤ i + 3) := by omega
        have h5 : i + 3 - (i + 3) = 0 := by omega
        simp only [h1, false_and, if_false, h5, Nat.mul_zero, Nat.zero_add, Nat.sub_zero,
          true_and, Nat.zero_le, le_refl]
        by_cases hk : k < 16 ∧ k < temp.length
        · have h2 : i + 3 < i + 3 + (n + 1) ∧ k < 16 ∧ k < temp.length := by omega
          have h3 : k < min 16 temp.length := by omega
          simp only [h2, h3, and_self, if_true]
        · have h2 : ¬ (i + 3 < i + 3 + (n + 1) ∧ k < 16 ∧ k < temp.length) := by omega
          have h3 : ¬ (k < min 16 temp.length) := by omega
          simp only [h2, h3, if_false]
      · have h3 : ¬ (b = i + 3 ∧ 0 ≤ k ∧ k < 0 + min 16 temp.length) := by omega
        by_cases hc : i + 1 + 3 ≤ b ∧ b < i + 1 + 3 + n ∧ k < 16 ∧
            16 * (b - (i + 1 + 3)) + k < temp.length - 16
        · have h2 : i + 3 ≤ b ∧ b < i + 3 + (n + 1) ∧ k < 16 ∧
              16 * (b - (i + 3)) + k < temp.length := by omega
          have h4 : 16 + (16 * (b - (i + 1 + 3)) + k) = 16 * (b - (i + 3)) + k := by omega
          simp only [hc, h2, and_self, if_true, getD_drop, h4]
        · have h2 : ¬ (i + 3 ≤ b ∧ b < i + 3 + (n + 1) ∧ k < 16 ∧
              16 * (b - (i + 3)) + k < temp.length) := by omega
          simp only [hc, h2, h3, if_false]
    · congr 1
      omega

theorem encodeGametype_recognised (h : NfcH) (ty : List Nat) (c : Nat) (m : Nat → Nat → Nat)
    (hty : (ty, c) ∈ recognisedTypes h) :
    encodeGametype h ty m = setByte m 1 0 (c % 256) := by
  simp only [recognisedTypes, List.mem_cons, Prod.mk.injEq, List.mem_singleton,
    List.not_mem_nil, or_false] at hty
  unfold encodeGametype
  rcases hty with ⟨h1, h2⟩ | ⟨h1, h2⟩ | ⟨h1, h2⟩ | ⟨h1, h2⟩ | ⟨h1, h2⟩ | ⟨h1, h2⟩ | ⟨h1, h2⟩
  · subst h1 h2
    rw [if_pos rfl]
  · subst h1 h2
    rw [if_neg (by decide), if_pos rfl]
  · subst h1 h2
    rw [if_neg (by decide), if_neg (by decide), if_pos rfl]
  · subst h1 h2
    rw [if_neg (by decide), if_neg (by decide), if_neg (by decide), if_pos rfl]
  · subst h1 h2
    rw [if_neg (by decide), if_neg (by decide), if_neg (by decide), if_neg (by decide),
      if_pos rfl]
  · subst h1 h2
    rw [if_neg (by decide), if_neg (by decide), if_neg (by decide), if_neg (by decide),
      if_neg (by decide), if_pos (Or.inl rfl)]
  · subst h1 h2
    rw [if_neg (by decide), if_neg (by decide), if_neg (by decide), if_neg (by decide),
      if_neg (by decide), if_pos (Or.inr rfl)]

/-- Byte `j` of block `b` after the record encoder. -/
theorem encodeGame_apply (h : NfcH) (N : Nat) (out : game) (mem : Nat → Nat → Nat) (b j : Nat) :
    encodeGame h N out mem b j =
      if 3 ≤ b ∧ b < 3 + (out.filename.length / 16 + 1) ∧ j < 16 ∧
          16 * (b - 3) + j < out.filename.length
        then out.filename.getD (16 * (b - 3) + j) 0
      else if b = 2 ∧ j = 0 then out.filename.length % 256
      else encodeGametype h out.gametype (zeroBlocks N mem) b j := by
  simp only [encodeGame, encodeName_outer_eq, Nat.zero_add, setByte]

/-- The record encoder of `writeGame` produces the GameRecord layout. -/
theorem encodeGame_layout (h : NfcH) (N : Nat) (out : game) (mem : Nat → Nat → Nat) (c : Nat)
    (hty : (out.gametype, c) ∈ recognisedTypes h) (hc : c < 256)
    (hlen : out.filename.length < 256) :
    RecordLayout N c out.filename (encodeGame h N out mem) := by
  have hg := encodeGametype_recognised h out.gametype c (zeroBlocks N mem) hty
  refine ⟨?_, ?_, ?_, ?_⟩
  · rw [encodeGame_apply, hg]
    have h1 : ¬ (3 ≤ 1 ∧ 1 < 3 + (out.filename.length / 16 + 1) ∧ 0 < 16 ∧
        16 * (1 - 3) + 0 < out.filename.length) := by omega
    rw [if_neg h1, if_neg (by omega)]
    simp only [setByte, and_self, if_true]
    omega
  · rw [encodeGame_apply]
    have h1 : ¬ (3 ≤ 2 ∧ 2 < 3 + (out.filename.length / 16 + 1) ∧ 0 < 16 ∧
        16 * (2 - 3) + 0 < out.filename.length) := by omega
    rw [if_neg h1, if_pos ⟨rfl, rfl⟩]
    omega
  · intro k hk
    rw [encodeGame_apply]
    have h1 : 3 ≤ 3 + k / 16 ∧ 3 + k / 16 < 3 + (out.filename.length / 16 + 1) ∧ k % 16 < 16 ∧
        16 * (3 + k / 16 - 3) + k % 16 < out.filename.length := by omega
    have h2 : 16 * (3 + k / 16 - 3) + k % 16 = k := by omega
    rw [if_pos h1, h2]
  · intro b j hb1 hbN hj h10 h20 hk
    rw [encodeGame_apply, hg]
    have h1 : ¬ (3 ≤ b ∧ b < 3 + (out.filename.length / 16 + 1) ∧ j < 16 ∧
        16 * (b - 3) + j < out.filename.length) := by
      intro hc
      exact hk ⟨16 * (b - 3) + j, hc.2.2.2, by omega, by omega⟩
    rw [if_neg h1, if_neg h20]
    simp only [setByte, h10, if_false]
    rw [zeroBlocks_apply, if_pos ⟨hb1, hbN, hj⟩]

set_option maxRecDepth 100000 in
/-- C7 witness: 30 pages, every read answered with the bytes `1 .. 16`, the
staging memory `0xFF` throughout before the call.  Eight block reads are
issued; block 6 receives all 16 bytes; the last block (pages 28 and 29)
receives 8 bytes and keeps its other 8; block 8 is untouched. -/
theorem read_card_memory_witness :
    ∃ (ret : Bool) (v1 : ReadVars) (s1 : State) (ev : List Event),
      read_card devGood exampleH state30 = some (ret, v1, s1) ∧
      s1.log = state30.log ++ ev ∧
      ev.map Prod.fst = (List.range 8).map (fun b => Cmd.mifare_cmd .MC_READ (4 * b) []) ∧
      (List.range 16).map (s1.mtDump 6) =
        [1, 2, 3, 4, 5, 6, 7, 8, 9, 10, 11, 12, 13, 14, 15, 16] ∧
      (List.range 16).map (s1.mtDump 7) =
        [1, 2, 3, 4, 5, 6, 7, 8, 0xFF, 0xFF, 0xFF, 0xFF, 0xFF, 0xFF, 0xFF, 0xFF] ∧
      (List.range 16).map (s1.mtDump 8) = List.replicate 16 0xFF := by
  obtain ⟨ret, v1, s1, ev, hrun, hlog, hcmds, -⟩ :=
    read_card_memory devGood exampleH state30 (by decide) rfl
  have hd : (read_card devGood exampleH state30).all (fun r =>
      decide ((List.range 16).map (r.2.2.mtDump 6) =
          [1, 2, 3, 4, 5, 6, 7, 8, 9, 10, 11, 12, 13, 14, 15, 16] ∧
        (List.range 16).map (r.2.2.mtDump 7) =
          [1, 2, 3, 4, 5, 6, 7, 8, 0xFF, 0xFF, 0xFF, 0xFF, 0xFF, 0xFF, 0xFF, 0xFF] ∧
        (List.range 16).map (r.2.2.mtDump 8) = List.replicate 16 0xFF)) = true := by
    decide
  rw [hrun] at hd
  simp only [Option.all, decide_eq_true_eq] at hd
  exact ⟨ret, v1, s1, ev, hrun, hlog, hcmds, hd.1, hd.2.1, hd.2.2⟩

/-- `openTag` leaves the page count alone. -/
theorem openTag_uiBlocks (dev : Device) (s : State) : (openTag dev s).2.uiBlocks = s.uiBlocks := by
  simp only [openTag, nfc_initiator_select_passive_target, exec]
  repeat' split
  all_goals rfl

/-- `read_card` returns for every EV1 variant and leaves the page count
alone. -/
theorem read_card_returns (dev : Device) (h : NfcH) (s : State) (hN : s.uiBlocks + 4 ≤ 2 ^ 32) :
    ∃ (ret : Bool) (v1 : ReadVars) (s1 : State),
      read_card dev h s = some (ret, v1, s1) ∧ s1.uiBlocks = s.uiBlocks := by
  obtain ⟨v1, s1, ev, hrun, -, hblk, -, -, -⟩ :=
    read_card_loop_run dev (s.uiBlocks + 1) 0 ⟨false, 0⟩ s hN (by omega)
  simp only [read_card]
  rw [show (0 : Nat) = 4 * 0 from rfl, hrun]
  simp only
  cases s1.iEV1Type <;> exact ⟨_, _, _, rfl, hblk⟩

/-- C3: for every device, every record whose type string is recognised (with a
code below 256) and whose filename fits the tag, and every page count whose
read loop cannot wrap, `writeGame` either returns early or reaches the call of
`write_card`, and the staging memory it hands over then has the GameRecord
layout: the type code at byte 0 of block 1, the filename length at byte 0 of
block 2, filename byte `k` at byte `k mod 16` of block `3 + k div 16`, and
zero in every other byte of the blocks from 1 on. -/
theorem writeGame_hands_record (dev : Device) (h : NfcH) (out : game) (s : State) (c : Nat)
    (hty : (out.gametype, c) ∈ recognisedTypes h) (hc : c < 256)
    (hfit : FitsTag s.uiBlocks out.filename.length) (hN : s.uiBlocks + 4 ≤ 2 ^ 32) :
    ∃ fl : Flow Unit, writeGame_stage dev h out s = some fl ∧
      ∀ (u : Unit) (s1 : State), fl = .running u s1 →
        RecordLayout s.uiBlocks c out.filename s1.mtDump := by
  have hob := openTag_uiBlocks dev s
  simp only [writeGame_stage]
  cases hok : (openTag dev s).1 with
  | false =>
    refine ⟨.returned false () (openTag dev s).2, by simp, ?_⟩
    intro u s1 hfl
    simp at hfl
  | true =>
    obtain ⟨ret, v1, s2, hrun, hblk⟩ :=
      read_card_returns dev h (openTag dev s).2 (by rw [hob]; exact hN)
    refine ⟨.running () { s2 with mtDump := encodeGame h s2.uiBlocks out s2.mtDump },
      by simp [hrun], ?_⟩
    intro u s1 hfl
    simp only [Flow.running.injEq, true_and] at hfl
    subst hfl
    rw [hblk, hob]
    exact encodeGame_layout h s.uiBlocks out s2.mtDump c hty hc hfit.2

set_option maxRecDepth 100000 in
/-- C3 witness: the record `{type = "nes", filename = "mario"}` on the 32-page
tag of `devGood`.  `writeGame` reaches `write_card`, and the memory handed
over has the layout, with block 1 byte 0 = NES, block 2 byte 0 = 5, block 3 =
"mario" followed by 11 zero bytes. -/
theorem writeGame_hands_record_witness :
    ∃ s1 : State,
      writeGame_stage devGood exampleH ⟨cstr "nes", cstr "mario"⟩ initState
        = some (.running () s1) ∧
      RecordLayout 32 exampleH.NES (cstr "mario") s1.mtDump ∧
      s1.mtDump 1 0 = exampleH.NES ∧ s1.mtDump 2 0 = 5 ∧
      (List.range 16).map (s1.mtDump 3) = cstr "mario" ++ List.replicate 11 0 := by
  obtain ⟨fl, hfl, hlay⟩ :=
    writeGame_hands_record devGood exampleH ⟨cstr "nes", cstr "mario"⟩ initState exampleH.NES
      (by decide) (by decide) ⟨by decide, by decide⟩ (by decide)
  have hd : (match writeGame_stage devGood exampleH ⟨cstr "nes", cstr "mario"⟩ initState with
      | some (.running _ s1) =>
        decide (s1.mtDump 1 0 = exampleH.NES ∧ s1.mtDump 2 0 = 5 ∧
          (List.range 16).map (s1.mtDump 3) = cstr "mario" ++ List.replicate 11 0)
      | _ => false) = true := by
    decide
  rw [hfl] at hd
  cases fl with
  | returned b u s1 => simp at hd
  | running u s1 =>
    simp only [decide_eq_true_eq] at hd
    exact ⟨s1, hfl, hlay u s1 rfl, hd.1, hd.2.1, hd.2.2⟩

/-- C2 (evaluation at the failing input): whatever pairwise distinct values
`nfc.h` gives the six type codes, take the one of GB and GBC that is not zero
and the 32-page tag memory that holds the record with this code and the
filename "a".  The decoder of `readGame` yields the type string "GB" (or
"GBC"), which the encoder of `writeGame` does not recognise (it compares with
"gb" and "gbc"): byte 0 of block 1 of the re-encoded memory is 0 and differs
from the code on the tag. -/
theorem roundtrip_loses_gb_type (h : NfcH) (mem0 : Nat → Nat → Nat)
    (hd : [h.NES, h.SNES, h.GB, h.GBC, h.GBA, h.GENESIS].Nodup) :
    ∃ c, (c = h.GB ∨ c = h.GBC) ∧
      RecordLayout 32 c (cstr "a") (recordMem c (cstr "a")) ∧
      (decodeGame h (recordMem c (cstr "a"))).filename = cstr "a" ∧
      ((decodeGame h (recordMem c (cstr "a"))).gametype = cstr "GB" ∨
        (decodeGame h (recordMem c (cstr "a"))).gametype = cstr "GBC") ∧
      encodeGame h 32 (decodeGame h (recordMem c (cstr "a"))) mem0 1 0 = 0 ∧
      recordMem c (cstr "a") 1 0 = c ∧ c ≠ 0 := by
  simp only [List.nodup_cons, List.mem_cons, List.mem_singleton, not_or, List.not_mem_nil,
    not_false_eq_true, List.nodup_nil, and_true] at hd
  obtain ⟨⟨-, h13, h14, -, -⟩, ⟨h23, h24, -, -⟩, ⟨h34, -, -⟩, -, -⟩ := hd
  have hlay : ∀ c, RecordLayout 32 c (cstr "a") (recordMem c (cstr "a")) := by
    intro c
    refine ⟨by simp [recordMem], by simp [recordMem, cstr], ?_, ?_⟩
    · intro k hk
      have hk0 : k = 0 := by
        simp [cstr] at hk
        exact hk
      subst hk0
      simp [recordMem]
    · intro b j hb1 hbN hj h10 h20 hk
      simp only [recordMem, h10, h20, if_false]
      split
      · rename_i h3
        have hidx : 16 * (b - 3) + j ≠ 0 := by
          intro h0
          exact hk ⟨0, by simp [cstr], by omega, by omega⟩
        obtain ⟨i, hi⟩ := Nat.exists_eq_succ_of_ne_zero hidx
        rw [hi]
        simp [cstr]
      · rfl
  have hname : ∀ c, (decodeGame h (recordMem c (cstr "a"))).filename = cstr "a" := by
    intro c
    simp [decodeGame, decodeName_outer, decodeName_inner, recordMem, cstr]
  have henc : ∀ g : game, (g.gametype = cstr "GB" ∨ g.gametype = cstr "GBC") →
      encodeGame h 32 g mem0 1 0 = 0 := by
    intro g hg
    have hun : encodeGametype h g.gametype (zeroBlocks 32 mem0) = zeroBlocks 32 mem0 := by
      unfold encodeGametype
      rcases hg with hg | hg <;> rw [hg] <;>
        rw [if_neg (by decide), if_neg (by decide), if_neg (by decide), if_neg (by decide),
          if_neg (by decide), if_neg (by decide)]
    rw [encodeGame_apply, hun, zeroBlocks_apply]
    have h1 : ¬ (3 ≤ 1 ∧ 1 < 3 + (g.filename.length / 16 + 1) ∧ 0 < 16 ∧
        16 * (1 - 3) + 0 < g.filename.length) := by omega
    rw [if_neg h1, if_neg (by omega), if_pos (by omega)]
  by_cases h0 : h.GB = 0
  · have hty : (decodeGame h (recordMem h.GBC (cstr "a"))).gametype = cstr "GBC" := by
      simp only [decodeGame, decodeGametype, recordMem, and_self, if_true]
      rw [if_neg (Ne.symm h14), if_neg (Ne.symm h24), if_neg (Ne.symm h34)]
    exact ⟨h.GBC, Or.inr rfl, hlay _, hname _, Or.inr hty,
      henc _ (Or.inr hty), by simp [recordMem], by omega⟩
  · have hty : (decodeGame h (recordMem h.GB (cstr "a"))).gametype = cstr "GB" := by
      simp only [decodeGame, decodeGametype, recordMem, and_self, if_true]
      rw [if_neg (Ne.symm h13), if_neg (Ne.symm h23)]
    exact ⟨h.GB, Or.inl rfl, hlay _, hname _, Or.inl hty,
      henc _ (Or.inl hty), by simp [recordMem], h0⟩

/-- C2 witness: the enumerators numbered from 1. -/
theorem roundtrip_loses_gb_type_witness :
    ∃ c, (c = exampleH.GB ∨ c = exampleH.GBC) ∧
      RecordLayout 32 c (cstr "a") (recordMem c (cstr "a")) ∧
      (decodeGame exampleH (recordMem c (cstr "a"))).filename = cstr "a" ∧
      ((decodeGame exampleH (recordMem c (cstr "a"))).gametype = cstr "GB" ∨
        (decodeGame exampleH (recordMem c (cstr "a"))).gametype = cstr "GBC") ∧
      encodeGame exampleH 32 (decodeGame exampleH (recordMem c (cstr "a"))) (fun _ _ => 0) 1 0
        = 0 ∧
      recordMem c (cstr "a") 1 0 = c ∧ c ≠ 0 :=
  roundtrip_loses_gb_type exampleH (fun _ _ => 0) (by decide)

set_option maxRecDepth 100000 in
/-- C9 (evaluation at the failing inputs), 32 pages.  (1) When only the read of
the first block fails, `read_card` still issues all 8 block reads and 7 of
them succeed, yet it counts 32 failed pages and adds nothing to
`uiReadPages`: the failure flag is never cleared, so every later block is
counted as failed.  (2) On a device where every read succeeds, a second call
of `readGame` in the same process dumps 256 bytes, not 128: `uiReadPages` is a
static that is never reset, so it is 64 after the second `read_card`. -/
theorem read_card_accounting_defects :
    (read_card devFirstReadFails exampleH initState).map
        (fun r => (r.2.1.uiFailedPages, r.2.2.uiReadPages,
          r.2.2.log.map (fun e => decide (e.2.res ≠ 0))))
      = some (32, 0, [false, true, true, true, true, true, true, true]) ∧
    ((readGame devGood exampleH initState).bind
        (fun r => readGame devGood exampleH r.2)).map
        (fun r => (r.2.uiReadPages, dumpLengths r.2.log))
      = some (64, [128, 256]) := by
  constructor <;> decide

/-! ## Theorems: password parsing -/

theorem isxdigit_facts {c : Nat} (h : isxdigit c = true) :
    isspace c = false ∧ c ≠ 43 ∧ c ≠ 45 ∧ c ≠ 120 ∧ c ≠ 88 ∧ hexValue c < 16 := by
  simp only [isxdigit, Bool.or_eq_true, Bool.and_eq_true, decide_eq_true_eq] at h
  refine ⟨?_, by omega, by omega, by omega, by omega, ?_⟩
  · simp only [isspace, Bool.or_eq_false_iff, Bool.and_eq_false_iff, beq_eq_false_iff_ne,
      decide_eq_false_iff_not]
    omega
  · simp only [hexValue]
    split
    · omega
    · split <;> omega

/-- `isspace` of the embedding is white space as spelled out. -/
theorem isspace_iff (c : Nat) : isspace c = true ↔ WhiteSpace c := by
  simp only [isspace, WhiteSpace, Bool.or_eq_true, Bool.and_eq_true, decide_eq_true_eq,
    beq_iff_eq, List.mem_cons, List.mem_singleton, List.not_mem_nil, or_false]
  omega

/-- `isxdigit` of the embedding is a hexadecimal digit as spelled out. -/
theorem isxdigit_iff (c : Nat) : isxdigit c = true ↔ HexDigit c := by
  have e : cstr "0123456789ABCDEFabcdef" =
      [48, 49, 50, 51, 52, 53, 54, 55, 56, 57, 65, 66, 67, 68, 69, 70,
       97, 98, 99, 100, 101, 102] := by decide
  simp only [isxdigit, HexDigit, e, Bool.or_eq_true, Bool.and_eq_true, decide_eq_true_eq,
    List.mem_cons, List.mem_singleton, List.not_mem_nil, or_false]
  omega

/-- `hexValue` of the embedding is the digit value as spelled out. -/
theorem hexValue_eq {c : Nat} (h : HexDigit c) : hexValue c = digitValue c := by
  have e : cstr "0123456789ABCDEFabcdef" =
      [48, 49, 50, 51, 52, 53, 54, 55, 56, 57, 65, 66, 67, 68, 69, 70,
       97, 98, 99, 100, 101, 102] := by decide
  simp only [HexDigit, e, List.mem_cons, List.mem_singleton, List.not_mem_nil, or_false] at h
  rcases h with h | h | h | h | h | h | h | h | h | h | h | h | h | h | h | h | h | h | h | h |
    h | h <;> subst h <;> decide

theorem not_isspace {c : Nat} (h : ¬ WhiteSpace c) : isspace c = false :=
  Bool.eq_false_iff.mpr (fun hc => h ((isspace_iff c).mp hc))

theorem not_isxdigit {c : Nat} (h : ¬ HexDigit c) : isxdigit c = false :=
  Bool.eq_false_iff.mpr (fun hc => h ((isxdigit_iff c).mp hc))

theorem all_isspace {ws : List Nat} (h : ∀ c ∈ ws, WhiteSpace c) :
    ∀ c ∈ ws, isspace c = true :=
  fun c hc => (isspace_iff c).mpr (h c hc)

theorem dropWhile_ws (ws rest : List Nat) (h : ∀ c ∈ ws, isspace c = true) :
    (ws ++ rest).dropWhile isspace = rest.dropWhile isspace := by
  induction ws with
  | nil => rfl
  | cons w ws ih =>
    have hw : isspace w = true := h w (List.mem_cons_self _ _)
    simp only [List.cons_append, List.dropWhile, hw]
    exact ih (fun c hc => h c (List.mem_cons_of_mem _ hc))

theorem dropWhile_ws_cons (ws : List Nat) (d : Nat) (rest : List Nat)
    (h : ∀ c ∈ ws, WhiteSpace c) (hd : isspace d = false) :
    (ws ++ d :: rest).dropWhile isspace = d :: rest := by
  rw [dropWhile_ws ws _ (all_isspace h)]
  simp [List.dropWhile, hd]

theorem dropWhile_ws_nil (ws : List Nat) (h : ∀ c ∈ ws, WhiteSpace c) :
    ws.dropWhile isspace = [] := by
  have := dropWhile_ws ws [] (all_isspace h)
  simpa using this

/-- Every string is white space followed by a string that does not start with
white space. -/
theorem split_ws (input : List Nat) :
    ∃ (ws rest : List Nat), input = ws ++ rest ∧ (∀ c ∈ ws, WhiteSpace c) ∧
      (∀ c ∈ rest.head?, ¬ WhiteSpace c) := by
  induction input with
  | nil => exact ⟨[], [], rfl, by simp, by simp⟩
  | cons c input ih =>
    by_cases hc : WhiteSpace c
    · obtain ⟨ws, rest, he, hws, hr⟩ := ih
      refine ⟨c :: ws, rest, by rw [he]; rfl, ?_, hr⟩
      intro x hx
      rcases List.mem_cons.mp hx with rfl | hx
      · exact hc
      · exact hws x hx
    · exact ⟨[], c :: input, rfl, by simp, by simpa using hc⟩

/-- The directive reads a field as the words say, whatever the library does
with a bare `0x`. -/
theorem scan_2x_field (lib : BareHexPrefix) {input : List Nat} {v : Nat} {rest : List Nat}
    (h : FieldAt input v rest) : scan_2x lib input = .ok v rest := by
  cases h with
  | two ws d1 d2 rest hws h1 h2 =>
    have x1 := (isxdigit_iff d1).mpr h1
    have x2 := (isxdigit_iff d2).mpr h2
    obtain ⟨hs, h43, h45, -, -, -⟩ := isxdigit_facts x1
    have hsign : ¬ (d1 = 43 ∨ d1 = 45) := by omega
    simp only [scan_2x, dropWhile_ws_cons ws d1 _ hws hs, hsign, x1, x2, if_true, if_false,
      hexValue_eq h1, hexValue_eq h2]
  | one ws d rest hws h1 hnext =>
    have x1 := (isxdigit_iff d).mpr h1
    obtain ⟨hs, h43, h45, -, -, -⟩ := isxdigit_facts x1
    have hsign : ¬ (d = 43 ∨ d = 45) := by omega
    simp only [scan_2x, dropWhile_ws_cons ws d _ hws hs, hsign, x1, if_true, if_false,
      hexValue_eq h1]
    cases rest with
    | nil => rfl
    | cons c r =>
      obtain ⟨hc, hx⟩ := hnext c (by simp)
      simp only [not_isxdigit hc, hx, if_false, Bool.false_eq_true]
  | plus ws d rest hws h1 =>
    have x1 := (isxdigit_iff d).mpr h1
    have hs : isspace 43 = false := by decide
    simp [scan_2x, dropWhile_ws_cons ws 43 _ hws hs, x1, hexValue_eq h1]
  | minus ws d rest hws h1 =>
    have x1 := (isxdigit_iff d).mpr h1
    have hs : isspace 45 = false := by decide
    simp [scan_2x, dropWhile_ws_cons ws 45 _ hws hs, x1, hexValue_eq h1]

/-- Where the words see no field the directive fails, whatever the library
does with a bare `0x`. -/
theorem scan_2x_no_field (lib : BareHexPrefix) {input : List Nat} (h : NoField input) :
    scan_2x lib input = .inputFailure ∨ scan_2x lib input = .matchingFailure := by
  cases h with
  | ended ws hws =>
    left
    simp only [scan_2x, dropWhile_ws_nil input hws]
  | badChar ws c rest hws hs hx h43 h45 =>
    right
    have hsign : ¬ (c = 43 ∨ c = 45) := by omega
    simp only [scan_2x, dropWhile_ws_cons ws c _ hws (not_isspace hs), hsign,
      not_isxdigit hx, if_false, Bool.false_eq_true]
  | badSign ws sg rest hws hsg hnext =>
    right
    have hs : isspace sg = false := by
      rcases hsg with rfl | rfl <;> decide
    simp only [scan_2x, dropWhile_ws_cons ws sg _ hws hs, hsg, if_true]
    cases rest with
    | nil => rfl
    | cons c r =>
      have hc := hnext c (by simp)
      simp only [not_isxdigit hc, if_false, Bool.false_eq_true]

/-- `sscanf` converts the `n` fields that start the input. -/
theorem sscanf_2x_parses (lib : BareHexPrefix) {n : Nat} {input vs : List Nat}
    (h : Parses n input vs) :
    ∀ (count : Int) (tmp : List Nat),
      sscanf_2x lib n input count tmp = (count + n, tmp ++ vs) := by
  induction h with
  | done input =>
    intro count tmp
    simp [sscanf_2x]
  | field n input v rest vs hf _ ih =>
    intro count tmp
    simp only [sscanf_2x, scan_2x_field lib hf, ih]
    simp only [List.append_assoc, List.singleton_append, Nat.cast_add, Nat.cast_one]
    congr 1
    omega

/-- `sscanf` converts fewer than `n` fields when a field is missing. -/
theorem sscanf_2x_fails (lib : BareHexPrefix) {n : Nat} {input : List Nat}
    (h : Fails n input) :
    ∀ (count : Int) (tmp : List Nat), 0 ≤ count →
      (sscanf_2x lib (n) input count tmp).1 < count + n := by
  induction h with
  | here n input hno =>
    intro count tmp hc
    rcases scan_2x_no_field lib hno with hs | hs
    · simp only [sscanf_2x, hs]
      split <;> push_cast <;> omega
    · simp only [sscanf_2x, hs]
      push_cast
      omega
  | later n input v rest hf _ ih =>
    intro count tmp hc
    simp only [sscanf_2x, scan_2x_field lib hf]
    have := ih (count + 1) (tmp ++ [v]) (by omega)
    push_cast
    omega

/-- One field position is covered: a field, no field, or `0x`. -/
theorem field_cases (input : List Nat) :
    (∃ v rest, FieldAt input v rest) ∨ NoField input ∨ StartsZeroX input := by
  obtain ⟨ws, rest, he, hws, hr⟩ := split_ws input
  subst he
  cases rest with
  | nil =>
    right; left
    simpa using NoField.ended ws hws
  | cons c r =>
    have hs : ¬ WhiteSpace c := hr c (by simp)
    by_cases hsg : c = 43 ∨ c = 45
    · cases r with
      | nil => right; left; exact NoField.badSign ws c [] hws hsg (by simp)
      | cons d r2 =>
        by_cases hd : HexDigit d
        · left
          rcases hsg with rfl | rfl
          · exact ⟨_, _, FieldAt.plus ws d r2 hws hd⟩
          · exact ⟨_, _, FieldAt.minus ws d r2 hws hd⟩
        · right; left
          exact NoField.badSign ws c (d :: r2) hws hsg (by simpa using hd)
    · by_cases hx : HexDigit c
      · cases r with
        | nil => left; exact ⟨_, _, FieldAt.one ws c [] hws hx (by simp)⟩
        | cons d r2 =>
          by_cases hd : HexDigit d
          · left; exact ⟨_, _, FieldAt.two ws c d r2 hws hx hd⟩
          · by_cases hz : c = 48 ∧ (d = 120 ∨ d = 88)
            · right; right
              rw [hz.1]
              exact StartsZeroX.mk ws d r2 hws hz.2
            · left
              refine ⟨_, _, FieldAt.one ws c (d :: r2) hws hx ?_⟩
              intro x hx2
              simp only [List.head?_cons, Option.mem_def, Option.some.injEq] at hx2
              subst hx2
              exact ⟨hd, hz⟩
      · right; left
        exact NoField.badChar ws c r hws hs hx (by omega) (by omega)

/-- Every string starts with `n` fields, or misses one of them, or has `0x`
where one of them should start. -/
theorem parses_or_fails :
    ∀ (n : Nat) (input : List Nat),
      (∃ vs, Parses n input vs) ∨ Fails n input ∨ HasZeroX n input := by
  intro n
  induction n with
  | zero => intro input; exact Or.inl ⟨[], Parses.done input⟩
  | succ n ih =>
    intro input
    rcases field_cases input with ⟨v, rest, hf⟩ | hno | hz
    · rcases ih rest with ⟨vs, hp⟩ | hfail | hzx
      · exact Or.inl ⟨v :: vs, Parses.field n input v rest vs hf hp⟩
      · exact Or.inr (Or.inl (Fails.later n input v rest hf hfail))
      · exact Or.inr (Or.inr (HasZeroX.later n input v rest hf hzx))
    · exact Or.inr (Or.inl (Fails.here n input hno))
    · exact Or.inr (Or.inr (HasZeroX.here n input hz))

theorem dropWhile_isspace_filter (l : List Nat) :
    (l.dropWhile isspace).filter isxdigit = l.filter isxdigit := by
  induction l with
  | nil => rfl
  | cons c l ih =>
    cases hsp : isspace c with
    | false => simp [List.dropWhile, hsp]
    | true =>
      have hx : isxdigit c = false := by
        cases hx : isxdigit c with
        | false => rfl
        | true => rw [(isxdigit_facts hx).1] at hsp; exact absurd hsp (by decide)
      simp [List.dropWhile, hsp, hx, ih]

/-- A successful `%2x` directive consumes at least one hexadecimal digit. -/
theorem scan_2x_consumes (lib : BareHexPrefix) (input : List Nat) (v : Nat) (rest : List Nat)
    (h : scan_2x lib input = .ok v rest) :
    (rest.filter isxdigit).length < (input.filter isxdigit).length := by
  rw [← dropWhile_isspace_filter input]
  unfold scan_2x at h
  split at h
  · simp at h
  · rename_i c1 r1 heq
    rw [heq]
    split at h
    · split at h
      · simp at h
      · rename_i c2 r2
        split at h
        · rename_i hx2
          simp only [ScanResult.ok.injEq] at h
          rw [← h.2]
          simp only [List.filter_cons, hx2, if_true]
          split
          · simp only [List.length_cons]
            omega
          · simp only [List.length_cons]
            omega
        · simp at h
    · split at h
      · rename_i hx1
        split at h
        · simp only [ScanResult.ok.injEq] at h
          rw [← h.2]
          simp [List.filter_cons, hx1]
        · rename_i c2 r2
          split at h
          · rename_i hx2
            simp only [ScanResult.ok.injEq] at h
            rw [← h.2]
            simp only [List.filter_cons, hx1, hx2, if_true, List.length_cons]
            omega
          · rename_i hx2
            split at h
            · cases lib with
              | fails => simp at h
              | zeroConsumed =>
                simp only [ScanResult.ok.injEq] at h
                rw [← h.2]
                simp only [List.filter_cons, hx1, if_true, List.length_cons]
                split
                · simp only [List.length_cons]
                  omega
                · omega
              | zeroStopped =>
                simp only [ScanResult.ok.injEq] at h
                rw [← h.2]
                simp [List.filter_cons, hx1]
            · simp only [ScanResult.ok.injEq] at h
              rw [← h.2]
              simp [List.filter_cons, hx1]
      · simp at h

/-- `sscanf` cannot convert more fields than there are hexadecimal digits. -/
theorem sscanf_2x_le (lib : BareHexPrefix) :
    ∀ (n : Nat) (input : List Nat) (count : Int) (tmp : List Nat), 0 ≤ count →
      (sscanf_2x lib n input count tmp).1 ≤ count + ((input.filter isxdigit).length : Int) := by
  intro n
  induction n with
  | zero =>
    intro input count tmp hc
    simp only [sscanf_2x]
    omega
  | succ n ih =>
    intro input count tmp hc
    simp only [sscanf_2x]
    cases hs : scan_2x lib input with
    | inputFailure =>
      simp only
      split <;> omega
    | matchingFailure =>
      simp only
      omega
    | ok v rest =>
      simp only
      have h1 := ih rest (count + 1) (tmp ++ [v]) (by omega)
      have h2 := scan_2x_consumes lib input v rest hs
      omega

theorem filter_hexDigit (l : List Nat) :
    l.filter (fun c => decide (HexDigit c)) = l.filter isxdigit := by
  apply List.filter_congr
  intro c _
  cases h : isxdigit c with
  | true => simpa using (isxdigit_iff c).mp h
  | false =>
    simp only [decide_eq_false_iff_not]
    intro hc
    rw [(isxdigit_iff c).mpr hc] at h
    exact absurd h (by decide)

theorem parses_length {n : Nat} {input vs : List Nat} (h : Parses n input vs) :
    vs.length = n := by
  induction h with
  | done input => rfl
  | field n input v rest vs _ _ ih => simp [ih]

/-- C6 (counterexample): strings that are not 8 hexadecimal characters and
are accepted all the same, whatever the library does with a bare `0x`: ten
hexadecimal characters (the rest is ignored), single digits separated by
spaces, signed digits, and seven hexadecimal characters. -/
theorem ev1_load_pwd_accepts_other_strings :
    OtherStrings .fails ∧ OtherStrings .zeroConsumed ∧ OtherStrings .zeroStopped := by
  decide

/-- C6 (amended): `ev1_load_pwd` reads four fields, a field being optional
white space followed by two hexadecimal digits, or by one hexadecimal digit
that no further digit follows, or by a sign and one hexadecimal digit.
(1) If the string starts with four fields, whatever follows them, it returns
true and sets the 4 target bytes to the field values modulo 256.  (2) If a
field is missing before four are read -- the string ends there, or continues
after white space with a character that is neither a hexadecimal digit nor a
sign, or with a sign that no hexadecimal digit follows -- it returns false and
leaves the target bytes unchanged.  (3) Every string falls under (1) or (2)
except those with `0x` or `0X` where one of the four fields should start.
(4) In particular every string that starts with 8 hexadecimal characters
succeeds with the values of the 4 consecutive pairs.  (5) Whenever the result
is false the target bytes are unchanged.  (6) A string with fewer than 4
hexadecimal digits gives false.  All of this holds whatever the library does
with a bare `0x` field. -/
theorem ev1_load_pwd_amended (lib : BareHexPrefix) (target pwd : List Nat) :
    (∀ vs, Parses 4 pwd vs →
      ev1_load_pwd lib target pwd = (true, vs.map (· % 256) ++ target.drop 4)) ∧
    (Fails 4 pwd → ev1_load_pwd lib target pwd = (false, target)) ∧
    ((∃ vs, Parses 4 pwd vs) ∨ Fails 4 pwd ∨ HasZeroX 4 pwd) ∧
    (∀ (a b c d e f g i : Nat) (rest : List Nat),
      HexDigit a → HexDigit b → HexDigit c → HexDigit d →
      HexDigit e → HexDigit f → HexDigit g → HexDigit i →
      pwd = [a, b, c, d, e, f, g, i] ++ rest →
      ev1_load_pwd lib target pwd =
        (true, [16 * digitValue a + digitValue b, 16 * digitValue c + digitValue d,
                16 * digitValue e + digitValue f, 16 * digitValue g + digitValue i]
          ++ target.drop 4)) ∧
    ((ev1_load_pwd lib target pwd).1 = false → (ev1_load_pwd lib target pwd).2 = target) ∧
    ((pwd.filter (fun c => decide (HexDigit c))).length < 4 →
      (ev1_load_pwd lib target pwd).1 = false) := by
  have hparse : ∀ vs, Parses 4 pwd vs →
      ev1_load_pwd lib target pwd = (true, vs.map (· % 256) ++ target.drop 4) := by
    intro vs hp
    have hlen := parses_length hp
    have hs := sscanf_2x_parses lib hp 0 []
    match vs, hlen with
    | [v1, v2, v3, v4], _ =>
      simp [ev1_load_pwd, hs]
  refine ⟨hparse, ?_, parses_or_fails 4 pwd, ?_, ?_, ?_⟩
  · intro hf
    have hlt := sscanf_2x_fails lib hf 0 [] (le_refl 0)
    have hne : (sscanf_2x lib 4 pwd 0 []).1 ≠ 4 := by
      push_cast at hlt
      omega
    unfold ev1_load_pwd
    simp only [hne, ne_eq, not_false_eq_true, if_true]
  · intro a b c d e f g i rest ha hb hc hd he hf hg hi hpwd
    have bound : ∀ {x : Nat}, HexDigit x → digitValue x < 16 := by
      intro x hx
      rw [← hexValue_eq hx]
      exact (isxdigit_facts ((isxdigit_iff x).mpr hx)).2.2.2.2.2
    have ba := bound ha
    have bb := bound hb
    have bc := bound hc
    have bd := bound hd
    have be := bound he
    have bf := bound hf
    have bg := bound hg
    have bi := bound hi
    have m1 : (16 * digitValue a + digitValue b) % 256 = 16 * digitValue a + digitValue b := by
      omega
    have m2 : (16 * digitValue c + digitValue d) % 256 = 16 * digitValue c + digitValue d := by
      omega
    have m3 : (16 * digitValue e + digitValue f) % 256 = 16 * digitValue e + digitValue f := by
      omega
    have m4 : (16 * digitValue g + digitValue i) % 256 = 16 * digitValue g + digitValue i := by
      omega
    have hp : Parses 4 pwd [16 * digitValue a + digitValue b, 16 * digitValue c + digitValue d,
        16 * digitValue e + digitValue f, 16 * digitValue g + digitValue i] := by
      rw [hpwd]
      refine Parses.field 3 _ _ ([c, d, e, f, g, i] ++ rest) _
        (FieldAt.two [] a b _ (by simp) ha hb) ?_
      refine Parses.field 2 _ _ ([e, f, g, i] ++ rest) _
        (FieldAt.two [] c d _ (by simp) hc hd) ?_
      refine Parses.field 1 _ _ ([g, i] ++ rest) _
        (FieldAt.two [] e f _ (by simp) he hf) ?_
      exact Parses.field 0 _ _ rest _
        (FieldAt.two [] g i _ (by simp) hg hi) (Parses.done rest)
    rw [hparse _ hp]
    simp [m1, m2, m3, m4]
  · intro hfalse
    unfold ev1_load_pwd at hfalse ⊢
    simp only at hfalse ⊢
    split
    · rfl
    · rename_i h4
      rw [if_neg h4] at hfalse
      simp at hfalse
  · intro hlt
    rw [filter_hexDigit] at hlt
    have hle := sscanf_2x_le lib 4 pwd 0 [] (le_refl 0)
    have hne : (sscanf_2x lib 4 pwd 0 []).1 ≠ 4 := by omega
    unfold ev1_load_pwd
    simp only [hne, ne_eq, not_false_eq_true, if_true]

/-- C6 witness: "DEADBEEF" starts with four fields and gives DE AD BE EF;
"DE:AD:BE:EF" has one field and then a colon where the second should start,
so it is rejected and the target stays `01 02 03 04`; so are the other strings
of `RejectedStrings`, whatever the library does with a bare `0x`. -/
theorem ev1_load_pwd_amended_witness :
    ev1_load_pwd .fails [0, 0, 0, 0] (cstr "DEADBEEF") = (true, [0xDE, 0xAD, 0xBE, 0xEF]) ∧
    Fails 4 (cstr "DE:AD:BE:EF") ∧
    ev1_load_pwd .zeroConsumed [1, 2, 3, 4] (cstr "DE:AD:BE:EF") = (false, [1, 2, 3, 4]) ∧
    RejectedStrings .fails ∧ RejectedStrings .zeroConsumed ∧
    RejectedStrings .zeroStopped := by
  have hf : Fails 4 (cstr "DE:AD:BE:EF") := by
    have e : cstr "DE:AD:BE:EF" = [] ++ 68 :: 69 :: ([] ++ 58 :: cstr "AD:BE:EF") := by decide
    rw [e]
    exact Fails.later 3 _ _ _ (FieldAt.two [] 68 69 _ (by simp) (by decide) (by decide))
      (Fails.here 2 _ (NoField.badChar [] 58 _ (by simp) (by decide) (by decide)
        (by decide) (by decide)))
  exact ⟨(ev1_load_pwd_amended .fails [0, 0, 0, 0] (cstr "DEADBEEF")).2.2.2.1
      68 69 65 68 66 69 69 70 []
      (by decide) (by decide) (by decide) (by decide) (by decide) (by decide) (by decide)
      (by decide) (by decide),
    hf,
    (ev1_load_pwd_amended .zeroConsumed [1, 2, 3, 4] (cstr "DE:AD:BE:EF")).2.1 hf,
    by decide, by decide, by decide⟩

end Nfc
